/- Verification development for the fmter multi-format rendering library.
   The Go source is shallowly embedded: each Go function becomes a Lean
   definition of the same name; io.Writer output is modelled as the string
   (or list of lines) produced, paired with an optional error. -/
import Mathlib

namespace Fmter

/-! ## Display-width utilities

Modelled from the spec: the third-party display-width library
(github.com/mattn/go-runewidth) is an excluded dependency; the spec only
requires a width function where wide (East-Asian full-width) characters
count as 2 columns, combining marks and control characters as 0, and
everything else as 1.  `runeWidth` realises that contract on a
representative set of Unicode ranges. -/

/-- Modelled from the spec: display width of one character (go-runewidth
`RuneWidth`): 0 for control characters and combining marks, 2 for
East-Asian wide ranges, 1 otherwise. -/
def runeWidth (c : Char) : Nat :=
  if c.val < 0x20 then 0
  else if 0x300 ≤ c.val ∧ c.val ≤ 0x36F then 0
  else if (0x1100 ≤ c.val ∧ c.val ≤ 0x115F) ∨ (0x2E80 ≤ c.val ∧ c.val ≤ 0x303E) ∨
          (0x3041 ≤ c.val ∧ c.val ≤ 0x33FF) ∨ (0x3400 ≤ c.val ∧ c.val ≤ 0x4DBF) ∨
          (0x4E00 ≤ c.val ∧ c.val ≤ 0x9FFF) ∨ (0xAC00 ≤ c.val ∧ c.val ≤ 0xD7A3) ∨
          (0xF900 ≤ c.val ∧ c.val ≤ 0xFAFF) ∨ (0xFF00 ≤ c.val ∧ c.val ≤ 0xFF60) ∨
          (0xFFE0 ≤ c.val ∧ c.val ≤ 0xFFE6) then 2
  else 1

/-- Display width of a character list (sum of `runeWidth`). -/
def listWidth (l : List Char) : Nat := (l.map runeWidth).sum

/-- go-runewidth `StringWidth`. -/
def strWidth (s : String) : Nat := listWidth s.data

/-- Longest prefix of `l` whose display width fits in `limit`
(the scanning core of go-runewidth `Truncate`). -/
def takeWidth : Nat → List Char → List Char
  | _, [] => []
  | limit, c :: cs => if runeWidth c ≤ limit then c :: takeWidth (limit - runeWidth c) cs else []

/-- go-runewidth `Truncate s w tail`: `s` unchanged when it fits, otherwise
the longest prefix of width at most `w - width tail` followed by `tail`. -/
def truncate (s : String) (w : Nat) (tail : String) : String :=
  if strWidth s ≤ w then s else ⟨takeWidth (w - strWidth tail) s.data⟩ ++ tail

/-- Go `strings.Repeat`. -/
def strRepeat (s : String) (n : Nat) : String := ⟨(List.replicate n s.data).flatten⟩

/-- Go `strings.Join`. -/
def joinSep (sep : String) : List String → String
  | [] => ""
  | [x] => x
  | x :: y :: xs => x ++ sep ++ joinSep sep (y :: xs)

/-- Concatenation of a list of strings (successive writes to one sink). -/
def concatAll : List String → String
  | [] => ""
  | s :: ss => s ++ concatAll ss

/-- Render a list of lines the way successive `fmt.Fprintln` calls do. -/
def joinLines (ls : List String) : String := concatAll (ls.map (fun l => l ++ "\n"))

/-- Go `strings.TrimRight(s, " ")`. -/
def trimRightSpaces (s : String) : String :=
  ⟨(s.data.reverse.dropWhile (fun c => c = ' ')).reverse⟩

/-- Go `for i, x := range xs` loop index/value pairs, starting at `k`. -/
def idxFrom : Nat → List α → List (Nat × α)
  | _, [] => []
  | k, x :: xs => (k, x) :: idxFrom (k + 1) xs

/-! ## JSON values and the encoding/json encoder

Modelled from the spec: the standard-library-grade JSON encoder is an
excluded dependency; items are represented by the JSON value they encode
to.  `encJ` reproduces compact and indented rendering and the
HTML-sensitive-character escaping switch that the spec calls out. -/

inductive Jval where
  | null : Jval
  | bool : Bool → Jval
  | num : Int → Jval
  | str : String → Jval
  | arr : List Jval → Jval
  | obj : List (String × Jval) → Jval
deriving Repr

/-- Hexadecimal digit for unicode escapes. -/
def hexDigit (n : Nat) : Char :=
  if n < 10 then Char.ofNat (48 + n) else Char.ofNat (87 + n)

/-- JSON escaping of one character; `escHTML` controls the
HTML-sensitive-character escaping of the batch encoder. -/
def jEscChar (escHTML : Bool) (c : Char) : List Char :=
  if c = '"' then ['\\', '"']
  else if c = '\\' then ['\\', '\\']
  else if c = '\n' then ['\\', 'n']
  else if c = '\r' then ['\\', 'r']
  else if c = '\t' then ['\\', 't']
  else if c.val < 0x20 then
    ['\\', 'u', '0', '0', hexDigit (c.toNat / 16), hexDigit (c.toNat % 16)]
  else if escHTML ∧ (c = '<' ∨ c = '>' ∨ c = '&') then
    ['\\', 'u', '0', '0', hexDigit (c.toNat / 16), hexDigit (c.toNat % 16)]
  else [c]

/-- JSON string literal rendering. -/
def jStr (escHTML : Bool) (s : String) : String :=
  "\"" ++ ⟨s.data.flatMap (jEscChar escHTML)⟩ ++ "\""

mutual
/-- JSON rendering at depth `d`; `ind = some tab` is the indented mode set
by `Encoder.SetIndent`. -/
def encJ (escHTML : Bool) (ind : Option String) (d : Nat) : Jval → String
  | .null => "null"
  | .bool b => if b then "true" else "false"
  | .num n => toString n
  | .str s => jStr escHTML s
  | .arr [] => "[]"
  | .arr (x :: xs) =>
    match ind with
    | none => "[" ++ joinSep "," (encJList escHTML none 0 (x :: xs)) ++ "]"
    | some tab =>
      "[\n" ++ joinSep ",\n" ((encJList escHTML ind (d + 1) (x :: xs)).map
        (fun e => strRepeat tab (d + 1) ++ e)) ++ "\n" ++ strRepeat tab d ++ "]"
  | .obj [] => "\x7b\x7d"
  | .obj (f :: fs) =>
    match ind with
    | none => "\x7b" ++ joinSep "," (encJFields escHTML none 0 (f :: fs)) ++ "\x7d"
    | some tab =>
      "\x7b\n" ++ joinSep ",\n" ((encJFields escHTML ind (d + 1) (f :: fs)).map
        (fun e => strRepeat tab (d + 1) ++ e)) ++ "\n" ++ strRepeat tab d ++ "\x7d"

def encJList (escHTML : Bool) (ind : Option String) (d : Nat) : List Jval → List String
  | [] => []
  | x :: xs => encJ escHTML ind d x :: encJList escHTML ind d xs

def encJFields (escHTML : Bool) (ind : Option String) (d : Nat) :
    List (String × Jval) → List String
  | [] => []
  | (k, v) :: fs => (jStr escHTML k ++ ":" ++ (if ind.isSome then " " else "") ++
      encJ escHTML ind d v) :: encJFields escHTML ind d fs
end

/-! ## Core library types (part_000) -/

/-- The three sentinel error kinds plus pass-through errors from a caller's
per-item override. -/
inductive Err where
  | unsupportedFormat : String → Err
  | missingInterface : String → String → Err
  | invalidTemplate : String → Err
  | custom : String → Err
deriving Repr, DecidableEq

inductive BorderStyle where
  | rounded | none | ascii | heavy | double
deriving Repr, DecidableEq

inductive Alignment where
  | left | center | right
deriving Repr, DecidableEq

structure KeyValue where
  key : String
  value : String
deriving Repr, DecidableEq

/-- A caller item.  Each optional capability interface of the Go library is
one `Option` field (`none` = the type does not implement it); `jval` is the
JSON value the item encodes to, `text` its Plain rendering (`String()` /
`%v`), and `formatFn?` the per-item `Formatter` override. -/
structure Item where
  jval : Jval
  text : String
  row? : Option (List String)
  list? : Option (List String)
  pairs? : Option (List KeyValue)
  header? : Option (List String)
  indent? : Option String
  title? : Option String
  border? : Option BorderStyle
  aligns? : Option (List Alignment)
  footer? : Option (List String)
  numHdr? : Option String
  caption? : Option String
  styles? : Option (List (Option (String → String)))
  group? : Option String
  wrapWidths? : Option (List Int)
  pageSize? : Option Int
  maxWidths? : Option (List Int)
  delim? : Option Char
  sep? : Option String
  export? : Option Bool
  quote? : Option Bool
  formatFn? : Option (String → Except Err (Option String))

/-- An item with no capabilities at all. -/
def emptyItem : Item :=
  ⟨.null, "", none, none, none, none, none, none, none, none, none, none,
   none, none, none, none, none, none, none, none, none, none, none⟩

/-! ## Format tag and registry (part_000) -/

/-- The ordered static tag list (`formats` package variable). -/
def formats : List String :=
  ["json", "yaml", "csv", "table", "markdown", "list", "env", "plain", "tsv", "jsonl", "html"]

/-- The literal `go-template=` tag marker, as characters. -/
def goTemplateTag : List Char := "go-template=".data

/-- `GoTemplate tmpl` builds the parameterized tag. -/
def GoTemplate (tmpl : String) : String := ⟨goTemplateTag⟩ ++ tmpl

/-- Go `strings.CutPrefix(string(f), goTemplatePrefix)`. -/
def cutTmpl (f : String) : Option String :=
  if goTemplateTag.isPrefixOf f.data then some ⟨f.data.drop goTemplateTag.length⟩ else none

/-- `ParseFormat` from part_000. -/
def ParseFormat (s : String) : Except Err String :=
  if goTemplateTag.isPrefixOf s.data then .ok s
  else
    match formats.find? (fun f => f = s) with
    | some f => .ok f
    | Option.none => .error (.unsupportedFormat s)

/-! ## Heap model for `Formats` (fresh-copy semantics)

Go slices alias a backing array; `Formats` allocates a new array and copies
the package-level `formats` slice into it.  The heap is the list of live
backing arrays; a slice reference is an index into it. -/

abbrev Heap := List (List String)

structure SliceRef where
  idx : Nat
deriving Repr, DecidableEq

def readSlice (h : Heap) (r : SliceRef) : List String := h.getD r.idx []

/-- Assign `v` to element `i` of the slice `r` (Go `s[i] = v`). -/
def writeSlice (h : Heap) (r : SliceRef) (i : Nat) (v : String) : Heap :=
  h.set r.idx ((h.getD r.idx []).set i v)

/-- The backing array of the package-level `formats` variable. -/
def formatsRef : SliceRef := ⟨0⟩

/-- Initial heap: only the `formats` backing array is allocated. -/
def initHeap : Heap := [formats]

/-- `Formats()`: `make` a fresh backing array, `copy` the current contents
of `formats` into it, and return the new slice. -/
def Formats (h : Heap) : SliceRef × Heap :=
  (⟨h.length⟩, h ++ [readSlice h formatsRef])

/-! ## Table renderer (table.go) -/

structure borderChars where
  topLeft : String
  topRight : String
  bottomLeft : String
  bottomRight : String
  horizontal : String
  vertical : String
  topTee : String
  bottomTee : String
  leftTee : String
  rightTee : String
  cross : String

/-- `borderSets` map; looking up `BorderStyle.none` yields the Go
zero-value struct (empty strings), exactly like a missing map key. -/
def borderSets : BorderStyle → borderChars
  | .rounded => ⟨"╭", "╮", "╰", "╯", "─", "│", "┬", "┴", "├", "┤", "┼"⟩
  | .ascii => ⟨"+", "+", "+", "+", "-", "|", "+", "+", "+", "+", "+"⟩
  | .heavy => ⟨"┏", "┓", "┗", "┛", "━", "┃", "┳", "┻", "┣", "┫", "╋"⟩
  | .double => ⟨"╔", "╗", "╚", "╝", "═", "║", "╦", "╩", "╠", "╣", "╬"⟩
  | .none => ⟨"", "", "", "", "", "", "", "", "", "", ""⟩

/-- `colCount`: maximum length among header, every row, and footer. -/
def colCount (header : List String) (rows : List (List String)) (footer : List String) : Nat :=
  max (rows.foldl (fun n row => max n row.length) header.length) footer.length

/-- One `for i, cell := range cells` width-raising pass over a cell list,
starting at index `k` (shared by `computeWidths` in table.go and the width
loops in markdown.go). -/
def widthPass (ws : List Nat) (k : Nat) (cells : List String) : List Nat :=
  match cells with
  | [] => ws
  | c :: cs =>
    widthPass (if k < ws.length ∧ ws.getD k 0 < strWidth c then ws.set k (strWidth c) else ws)
      (k + 1) cs

/-- `computeWidths`: per-column maxima of display width over header, rows
and footer. -/
def computeWidths (numCols : Nat) (header : List String) (rows : List (List String))
    (footer : List String) : List Nat :=
  widthPass (rows.foldl (fun ws row => widthPass ws 0 row)
    (widthPass (List.replicate numCols 0) 0 header)) 0 footer

/-- `extendAligns`: truncate or zero-pad the alignment list to `numCols`. -/
def extendAligns (aligns : List Alignment) (numCols : Nat) : List Alignment :=
  if numCols ≤ aligns.length then aligns.take numCols
  else aligns ++ List.replicate (numCols - aligns.length) .left

/-- `extendStyles`: truncate or nil-pad the style list to `numCols`. -/
def extendStyles (styles : List (Option (String → String))) (numCols : Nat) :
    List (Option (String → String)) :=
  if numCols ≤ styles.length then styles.take numCols
  else styles ++ List.replicate (numCols - styles.length) Option.none

/-- One iteration of the `wrapCell` loop: the maximal fitting prefix, or,
when that prefix is display-empty (a single leading character already
overflows the wrap width), exactly the first character. -/
def wrapTake (w : Nat) (l : List Char) : List Char :=
  let line := (truncate ⟨l⟩ w "").data
  if listWidth line = 0 then l.take 1 else line

/-- The loop of `wrapCell`: repeatedly cut a (forced-progress) prefix and
continue on the remaining text. -/
def wrapLoop (w : Nat) (l : List Char) : List (List Char) :=
  match l with
  | [] => []
  | c :: cs =>
    wrapTake w (c :: cs) :: wrapLoop w ((c :: cs).drop (wrapTake w (c :: cs)).length)
termination_by l.length
decreasing_by
  have h1 : 0 < (wrapTake w (c :: cs)).length := by
    simp only [wrapTake]
    by_cases hz : listWidth (truncate ⟨c :: cs⟩ w "").data = 0
    · simp [hz]
    · simp only [if_neg hz]
      cases h : (truncate ⟨c :: cs⟩ w "").data with
      | nil => exact absurd (by rw [h]; simp [listWidth]) hz
      | cons x xs => simp [h]
  simp only [List.length_drop, List.length_cons]
  omega

/-- `wrapCell` from table.go. -/
def wrapCell (s : String) (width : Int) : List String :=
  if width ≤ 0 ∨ (strWidth s : Int) ≤ width then [s]
  else (wrapLoop width.toNat s.data).map (fun l => ⟨l⟩)

/-- `wrapRow`: wrap each cell at its wrap width when that is positive and
narrower than the column width. -/
def wrapRow (cells : List String) (widths : List Nat) (wrapWidths : List Int) :
    List (List String) :=
  (idxFrom 0 widths).map (fun p =>
    let cell := cells.getD p.1 ""
    let ww := wrapWidths.getD p.1 0
    if 0 < ww ∧ ww < (p.2 : Int) then wrapCell cell ww else [cell])

/-- `maxLines`: visual line count of a wrapped row (at least 1). -/
def maxLines (wrapped : List (List String)) : Nat :=
  wrapped.foldl (fun n lines => max n lines.length) 1

/-- `alignCell`: pad `s` to `width` display columns per alignment; wider
strings are returned unchanged. -/
def alignCell (s : String) (width : Nat) (align : Alignment) : String :=
  if width ≤ strWidth s then s
  else
    let pad := width - strWidth s
    match align with
    | .right => strRepeat " " pad ++ s
    | .center => strRepeat " " (pad / 2) ++ s ++ strRepeat " " (pad - pad / 2)
    | .left => s ++ strRepeat " " pad

/-- `formatTableCell`: width-aware truncation (ellipsis for columns wider
than 3, hard cut otherwise) followed by alignment padding. -/
def formatTableCell (s : String) (width : Nat) (align : Alignment) : String :=
  let s := if 0 < width ∧ width < strWidth s then
      (if width ≤ 3 then truncate s width "" else truncate s width "...")
    else s
  alignCell s width align

/-- Apply an optional per-column style function (applied last, after
truncation and alignment). -/
def applyStyle (o : Option (String → String)) (s : String) : String :=
  match o with
  | some f => f s
  | Option.none => s

/-- `tableInnerWidth`: total width between the outer vertical borders. -/
def tableInnerWidth (widths : List Nat) : Nat :=
  (widths.map (fun w => w + 2)).sum + (if 1 < widths.length then widths.length - 1 else 0)

/-- `drawHLine`: one horizontal border line. -/
def drawHLine (widths : List Nat) (left fill mid right : String) : String :=
  left ++ joinSep mid (widths.map (fun w => strRepeat fill (w + 2))) ++ right

/-- The framed text of one visual row line: each cell is padded with one
space on each side and cells are separated by the vertical glyph. -/
def borderedLine (vert : String) (parts : List String) : String :=
  vert ++ joinSep vert parts ++ vert

/-- `drawBorderedRow`: one logical row, expanded to several visual lines
when wrap widths are configured. -/
def drawBorderedRow (cells : List String) (widths : List Nat) (aligns : List Alignment)
    (vert : String) (styles : List (Option (String → String))) (wrapWidths : List Int) :
    List String :=
  if wrapWidths ≠ [] then
    let wrapped := wrapRow cells widths wrapWidths
    (List.range (maxLines wrapped)).map (fun line =>
      borderedLine vert ((idxFrom 0 widths).map (fun p =>
        let cell := (wrapped.getD p.1 []).getD line ""
        " " ++ applyStyle (styles.getD p.1 Option.none)
          (formatTableCell cell p.2 (aligns.getD p.1 .left)) ++ " ")))
  else
    [borderedLine vert ((idxFrom 0 widths).map (fun p =>
      " " ++ applyStyle (styles.getD p.1 Option.none)
        (formatTableCell (cells.getD p.1 "") p.2 (aligns.getD p.1 .left)) ++ " "))]

/-- `renderBorderedTable`, producing the list of output lines. -/
def renderBorderedTable (title : String) (header : List String) (rows : List (List String))
    (footer : List String) (widths : List Nat) (aligns : List Alignment) (style : BorderStyle)
    (styles : List (Option (String → String))) (groups : List String) (wrapWidths : List Int)
    (pageSize : Int) : List String :=
  let bc := borderSets style
  let sepLine := drawHLine widths bc.leftTee bc.horizontal bc.cross bc.rightTee
  (if title ≠ "" then
    [drawHLine widths bc.topLeft bc.horizontal bc.horizontal bc.topRight,
     bc.vertical ++ " " ++ alignCell title (tableInnerWidth widths - 2) .center ++ " " ++ bc.vertical,
     drawHLine widths bc.leftTee bc.horizontal bc.topTee bc.rightTee]
   else [drawHLine widths bc.topLeft bc.horizontal bc.topTee bc.topRight])
  ++ (if header ≠ [] then
        drawBorderedRow header widths aligns bc.vertical styles wrapWidths ++ [sepLine]
      else [])
  ++ (idxFrom 0 rows).flatMap (fun p =>
      (if groups ≠ [] ∧ 0 < p.1 ∧ groups.getD p.1 "" ≠ groups.getD (p.1 - 1) "" then [sepLine]
       else [])
      ++ (if 0 < pageSize ∧ header ≠ [] ∧ 0 < p.1 ∧ (p.1 : Int) % pageSize = 0 then
            [sepLine] ++ drawBorderedRow header widths aligns bc.vertical styles wrapWidths
              ++ [sepLine]
          else [])
      ++ drawBorderedRow p.2 widths aligns bc.vertical styles wrapWidths)
  ++ (if footer ≠ [] then
        [sepLine] ++ drawBorderedRow footer widths aligns bc.vertical styles wrapWidths
      else [])
  ++ [drawHLine widths bc.bottomLeft bc.horizontal bc.bottomTee bc.bottomRight]

/-- `writePlainSep`: dash separator line of the borderless strategy. -/
def writePlainSep (widths : List Nat) : String :=
  joinSep "  " (widths.map (fun w => strRepeat "-" w))

/-- `writePlainRow`: one borderless logical row (possibly several visual
lines), cells joined by two spaces, trailing spaces trimmed. -/
def writePlainRow (cells : List String) (widths : List Nat) (aligns : List Alignment)
    (styles : List (Option (String → String))) (wrapWidths : List Int) : List String :=
  if wrapWidths ≠ [] then
    let wrapped := wrapRow cells widths wrapWidths
    (List.range (maxLines wrapped)).map (fun line =>
      trimRightSpaces (joinSep "  " ((idxFrom 0 widths).map (fun p =>
        applyStyle (styles.getD p.1 Option.none)
          (formatTableCell ((wrapped.getD p.1 []).getD line "") p.2 (aligns.getD p.1 .left))))))
  else
    [trimRightSpaces (joinSep "  " ((idxFrom 0 widths).map (fun p =>
      applyStyle (styles.getD p.1 Option.none)
        (formatTableCell (cells.getD p.1 "") p.2 (aligns.getD p.1 .left)))))]

/-- `renderPlainTable` (border style None), producing the output lines. -/
def renderPlainTable (header : List String) (rows : List (List String))
    (footer : List String) (widths : List Nat) (aligns : List Alignment)
    (styles : List (Option (String → String))) (groups : List String) (wrapWidths : List Int)
    (pageSize : Int) : List String :=
  (if header ≠ [] then
    writePlainRow header widths aligns styles wrapWidths ++ [writePlainSep widths]
   else [])
  ++ (idxFrom 0 rows).flatMap (fun p =>
      (if groups ≠ [] ∧ 0 < p.1 ∧ groups.getD p.1 "" ≠ groups.getD (p.1 - 1) "" then
        [writePlainSep widths] else [])
      ++ (if 0 < pageSize ∧ header ≠ [] ∧ 0 < p.1 ∧ (p.1 : Int) % pageSize = 0 then
            [writePlainSep widths] ++ writePlainRow header widths aligns styles wrapWidths
              ++ [writePlainSep widths]
          else [])
      ++ writePlainRow p.2 widths aligns styles wrapWidths)
  ++ (if footer ≠ [] then
        [writePlainSep widths] ++ writePlainRow footer widths aligns styles wrapWidths
      else [])

/-- The layout data `writeTable` gathers from item zero (and, for rows and
groups, from every item) before rendering, numbering transform and width
computation included. -/
structure TableData where
  title : String
  header : List String
  rows : List (List String)
  footer : List String
  border : BorderStyle
  aligns : List Alignment
  styles : List (Option (String → String))
  groups : List String
  wrapWidths : List Int
  pageSize : Int
  caption : String
  numCols : Nat
  widths : List Nat

/-- Setup phase of `writeTable` (capability gathering, numbering transform,
column count, width computation, truncation clamp, list extension). -/
def mkTableData (it : Item) (items : List Item) : TableData :=
  let rows := items.map (fun j => j.row?.getD [])
  let header := it.header?.getD []
  let title := it.title?.getD ""
  let border := it.border?.getD .rounded
  let aligns := it.aligns?.getD []
  let footer := it.footer?.getD []
  let numbered := it.numHdr?.isSome
  let numHdr := it.numHdr?.getD ""
  let caption := it.caption?.getD ""
  let styles := it.styles?.getD []
  let groups := if it.group?.isSome then items.map (fun j => j.group?.getD "") else []
  let wrapWidths := it.wrapWidths?.getD []
  let pageSize := it.pageSize?.getD 0
  let header := if numbered ∧ header ≠ [] then numHdr :: header else header
  let rows := if numbered then (idxFrom 0 rows).map (fun p => toString (p.1 + 1) :: p.2) else rows
  let footer := if numbered ∧ footer ≠ [] then "" :: footer else footer
  let aligns := if numbered then .right :: aligns else aligns
  let styles := if numbered then Option.none :: styles else styles
  let wrapWidths := if numbered ∧ wrapWidths ≠ [] then 0 :: wrapWidths else wrapWidths
  let numCols := colCount header rows footer
  let widths := computeWidths numCols header rows footer
  let widths := (idxFrom 0 widths).map (fun p =>
    match it.maxWidths?.getD [] |>.get? p.1 with
    | some m => if 0 < m ∧ (p.2 : Int) > m then m.toNat else p.2
    | Option.none => p.2)
  ⟨title, header, rows, footer, border, extendAligns aligns numCols,
   extendStyles styles numCols, groups, wrapWidths, pageSize, caption, numCols, widths⟩

/-- `writeTable`, producing the list of output lines. -/
def writeTableLines (items : List Item) : List String × Option Err :=
  match items with
  | [] => ([], Option.none)
  | it :: _ =>
    if it.row?.isSome then
      let d := mkTableData it items
      let body :=
        if d.border = .none then
          renderPlainTable d.header d.rows d.footer d.widths d.aligns d.styles d.groups
            d.wrapWidths d.pageSize
        else
          renderBorderedTable d.title d.header d.rows d.footer d.widths d.aligns d.border
            d.styles d.groups d.wrapWidths d.pageSize
      (body ++ (if d.caption ≠ "" then [d.caption] else []), Option.none)
    else ([], some (.missingInterface "table" "Rower"))

/-- `writeTable` as bytes written to the sink. -/
def writeTable (items : List Item) : String × Option Err :=
  let r := writeTableLines items
  (joinLines r.1, r.2)

/-! ## CSV / TSV renderers (csv.go, part_003) -/

/-- Modelled from the spec: RFC-4180-style quoting of the standard-library
csv writer — quote fields containing the active delimiter, a double quote
or a line break, doubling embedded double quotes. -/
def csvField (delim : Char) (s : String) : String :=
  if s.data.any (fun c => c = delim ∨ c = '"' ∨ c = '\n' ∨ c = '\r') then
    "\"" ++ (⟨s.data.flatMap (fun c => if c = '"' then ['"', '"'] else [c])⟩ : String) ++ "\""
  else s

/-- One delimited record line as the csv writer emits it. -/
def csvLine (delim : Char) (cells : List String) : String :=
  joinSep ⟨[delim]⟩ (cells.map (csvField delim)) ++ "\n"

/-- `writeCSV` from csv.go. -/
def writeCSV (items : List Item) : String × Option Err :=
  match items with
  | [] => ("", Option.none)
  | it :: _ =>
    if it.row?.isNone then ("", some (.missingInterface "csv" "Rower"))
    else
      let delim := it.delim?.getD ','
      ((match it.header? with
        | some h => csvLine delim h
        | Option.none => "") ++
       concatAll (items.map (fun j => csvLine delim (j.row?.getD []))), Option.none)

/-- Modelled from the spec: `writeCSVRow` is referenced by the streaming
layer and pinned by the repository tests (`"a,b\n"`) but its definition is
not among the provided sources — per §4.14 it appends one standalone
comma-delimited row. -/
def writeCSVRow (row : List String) : String := csvLine ',' row

/-- `writeTSV` from part_003: raw tab joins, no quoting. -/
def writeTSV (items : List Item) : String × Option Err :=
  match items with
  | [] => ("", Option.none)
  | it :: _ =>
    if it.row?.isNone then ("", some (.missingInterface "tsv" "Rower"))
    else
      ((match it.header? with
        | some h => joinSep "\t" h ++ "\n"
        | Option.none => "") ++
       concatAll (items.map (fun j => joinSep "\t" (j.row?.getD []) ++ "\n")), Option.none)

/-! ## List / ENV / Plain renderers (list.go, env.go, part_002) -/

/-- `writeList` from list.go. -/
def writeList (items : List Item) : String × Option Err :=
  match items with
  | [] => ("", Option.none)
  | it :: _ =>
    if it.list?.isNone then ("", some (.missingInterface "list" "Lister"))
    else
      let sep := it.sep?.getD "\n"
      let all := items.flatMap (fun j => j.list?.getD [])
      if all = [] then ("", Option.none) else (joinSep sep all ++ "\n", Option.none)

/-- Modelled from the spec: Go `%q` double-quoted string rendering used by
the ENV renderer's quote flag. -/
def goQuote (s : String) : String :=
  "\"" ++ (⟨s.data.flatMap (fun c =>
    if c = '"' then ['\\', '"']
    else if c = '\\' then ['\\', '\\']
    else if c = '\n' then ['\\', 'n']
    else if c = '\t' then ['\\', 't']
    else if c = '\r' then ['\\', 'r']
    else [c])⟩ : String) ++ "\""

/-- `writeENV` from env.go. -/
def writeENV (items : List Item) : String × Option Err :=
  match items with
  | [] => ("", Option.none)
  | it :: _ =>
    if it.pairs?.isNone then ("", some (.missingInterface "env" "Mappable"))
    else
      let exp := it.export?.getD false
      let qt := it.quote?.getD false
      let pfx := if exp then "export " else ""
      (concatAll ((idxFrom 0 items).map (fun p =>
        (if 0 < p.1 then "\n" else "") ++
        concatAll ((p.2.pairs?.getD []).map (fun kv =>
          pfx ++ kv.key ++ "=" ++ (if qt then goQuote kv.value else kv.value) ++ "\n")))),
       Option.none)

/-- `writePlain` from part_002: each item's textual rendering on its own
line. -/
def writePlain (items : List Item) : String × Option Err :=
  (concatAll (items.map (fun it => it.text ++ "\n")), Option.none)

/-! ## JSON / JSONL / YAML renderers (json.go, jsonl part, yaml.go) -/

/-- Encoding of the variadic item slice itself: a Go nil slice (the
zero-item variadic call) encodes as the JSON literal `null`. -/
def sliceJval (items : List Item) : Jval :=
  if items.isEmpty then .null else .arr (items.map (fun it => it.jval))

/-- `writeJSON` from json.go: one item bare, otherwise the whole slice. -/
def writeJSON (items : List Item) : String × Option Err :=
  let ind := match items with
    | it :: _ => it.indent?
    | [] => Option.none
  match items with
  | [x] => (encJ true ind 0 x.jval ++ "\n", Option.none)
  | _ => (encJ true ind 0 (sliceJval items) ++ "\n", Option.none)

/-- `writeJSONL`: one standalone JSON document per item, indent checked per
item. -/
def writeJSONL (items : List Item) : String × Option Err :=
  (concatAll (items.map (fun it => encJ true it.indent? 0 it.jval ++ "\n")), Option.none)

/-- Modelled from the spec: the third-party YAML encoder (out of scope per
§1); only the single/multiple/empty invocation pattern of yaml.go is
load-bearing here. -/
def yamlDoc : Jval → String
  | .null => "null\n"
  | .bool b => (if b then "true" else "false") ++ "\n"
  | .num n => toString n ++ "\n"
  | .str s => s ++ "\n"
  | .arr xs => if xs.isEmpty then "[]\n"
      else concatAll (xs.map (fun x => "- " ++ encJ false Option.none 0 x ++ "\n"))
  | .obj fs => if fs.isEmpty then "null\n"
      else concatAll (fs.map (fun kv => kv.1 ++ ": " ++ encJ false Option.none 0 kv.2 ++ "\n"))

/-- `writeYAML` from yaml.go: one item bare, otherwise the whole slice. -/
def writeYAML (items : List Item) : String × Option Err :=
  match items with
  | [x] => (yamlDoc x.jval, Option.none)
  | _ => (yamlDoc (sliceJval items), Option.none)

/-! ## HTML renderer (html.go) -/

/-- `alignStyle` from html.go. -/
def alignStyle (aligns : List Alignment) (col : Nat) : String :=
  if aligns.length ≤ col then ""
  else
    match aligns.getD col .left with
    | .right => " style=\"text-align: right\""
    | .center => " style=\"text-align: center\""
    | .left => ""

/-- Modelled from the spec: `html.EscapeString` (standard library). -/
def htmlEscape (s : String) : String :=
  ⟨s.data.flatMap (fun c =>
    if c = '&' then "&amp;".data
    else if c = '\'' then "&#39;".data
    else if c = '<' then "&lt;".data
    else if c = '>' then "&gt;".data
    else if c = '"' then "&#34;".data
    else [c])⟩

/-- `writeHTML` from html.go, as output lines. -/
def writeHTMLLines (items : List Item) : List String × Option Err :=
  match items with
  | [] => ([], Option.none)
  | it :: _ =>
    if it.row?.isNone then ([], some (.missingInterface "html" "Rower"))
    else
      let aligns := it.aligns?.getD []
      (["<table>"]
       ++ (match it.title? with
           | some t => if t ≠ "" then ["  <caption>" ++ htmlEscape t ++ "</caption>"] else []
           | Option.none => [])
       ++ (match it.header? with
           | some h =>
             ["  <thead>", "    <tr>"]
             ++ (idxFrom 0 h).map (fun p =>
                  "      <th" ++ alignStyle aligns p.1 ++ ">" ++ htmlEscape p.2 ++ "</th>")
             ++ ["    </tr>", "  </thead>"]
           | Option.none => [])
       ++ ["  <tbody>"]
       ++ items.flatMap (fun j =>
            ["    <tr>"]
            ++ (idxFrom 0 (j.row?.getD [])).map (fun p =>
                 "      <td" ++ alignStyle aligns p.1 ++ ">" ++ htmlEscape p.2 ++ "</td>")
            ++ ["    </tr>"])
       ++ ["  </tbody>"]
       ++ (match it.footer? with
           | some f =>
             ["  <tfoot>", "    <tr>"]
             ++ (idxFrom 0 f).map (fun p =>
                  "      <td" ++ alignStyle aligns p.1 ++ ">" ++ htmlEscape p.2 ++ "</td>")
             ++ ["    </tr>", "  </tfoot>"]
           | Option.none => [])
       ++ ["</table>"], Option.none)

/-- `writeHTML` as bytes. -/
def writeHTML (items : List Item) : String × Option Err :=
  let r := writeHTMLLines items
  (joinLines r.1, r.2)

/-! ## Markdown renderer (markdown.go) -/

/-- The width loops of markdown.go: maxima over header and rows, then a
floor of 3 per column. -/
def mdWidths (numCols : Nat) (header : List String) (rows : List (List String)) : List Nat :=
  (rows.foldl (fun ws r => widthPass ws 0 r) (widthPass (List.replicate numCols 0) 0 header)).map
    (fun w => if w < 3 then 3 else w)

/-- `writeMarkdownRow`. -/
def writeMarkdownRow (cells : List String) (widths : List Nat) (aligns : List Alignment) :
    String :=
  "| " ++ joinSep " | " ((idxFrom 0 widths).map (fun p =>
    alignCell (cells.getD p.1 "") p.2 (aligns.getD p.1 .left))) ++ " |"

/-- `writeMarkdown` from markdown.go, as output lines. -/
def writeMarkdownLines (items : List Item) : List String × Option Err :=
  match items with
  | [] => ([], Option.none)
  | it :: _ =>
    if it.row?.isNone then ([], some (.missingInterface "markdown" "Rower"))
    else
      match it.header? with
      | Option.none => ([], some (.missingInterface "markdown" "Headed"))
      | some header =>
        let numCols := header.length
        let rows := items.map (fun j => j.row?.getD [])
        let widths := mdWidths numCols header rows
        let aligns := extendAligns (it.aligns?.getD []) numCols
        let sep := (idxFrom 0 widths).map (fun p =>
          match aligns.getD p.1 .left with
          | .right => strRepeat "-" (p.2 - 1) ++ ":"
          | .center => ":" ++ strRepeat "-" (p.2 - 2) ++ ":"
          | .left => strRepeat "-" p.2)
        (writeMarkdownRow header widths aligns
          :: ("| " ++ joinSep " | " sep ++ " |")
          :: rows.map (fun r => writeMarkdownRow r widths aligns), Option.none)

/-- `writeMarkdown` as bytes. -/
def writeMarkdown (items : List Item) : String × Option Err :=
  let r := writeMarkdownLines items
  (joinLines r.1, r.2)

/-! ## Template renderer (go-template)

Modelled from the spec (§4.13, §6): the text/template engine is a
third-party dependency; the spec's contract is double-brace delimited
actions, dot-name field references resolved against the item, the literal
text `<no value>` for an absent key, and a parse-time InvalidTemplate
failure for an unterminated action. -/

def lbrace : Char := Char.ofNat 123

def rbrace : Char := Char.ofNat 125

inductive TPart where
  | lit : List Char → TPart
  | fld : List Char → TPart

/-- Scan to the closing double brace, returning the action text and the
remaining input. -/
def findClose : List Char → Option (List Char × List Char)
  | [] => Option.none
  | c :: cs =>
    if c = rbrace ∧ cs.head? = some rbrace then some ([], cs.drop 1)
    else
      match findClose cs with
      | some (a, r) => some (c :: a, r)
      | Option.none => Option.none

def trimSpacesL (l : List Char) : List Char :=
  ((l.dropWhile (fun c => c = ' ')).reverse.dropWhile (fun c => c = ' ')).reverse

/-- Modelled from the spec: fuel-indexed parser for the double-brace
template mini-language (`fuel = input length` always suffices). -/
def parseTmplF : Nat → List Char → Option (List TPart)
  | _, [] => some []
  | 0, _ :: _ => Option.none
  | fuel + 1, c :: cs =>
    if c = lbrace ∧ cs.head? = some lbrace then
      match findClose (cs.drop 1) with
      | some (action, rest) =>
        match parseTmplF fuel rest with
        | some ps => some (.fld (trimSpacesL action) :: ps)
        | Option.none => Option.none
      | Option.none => Option.none
    else
      match parseTmplF fuel cs with
      | some (.lit s :: ps) => some (.lit (c :: s) :: ps)
      | some ps => some (.lit [c] :: ps)
      | Option.none => Option.none

/-- Scalar rendering of a resolved field. -/
def renderScalar : Jval → String
  | .str s => s
  | .num n => toString n
  | .bool b => if b then "true" else "false"
  | .null => "<no value>"
  | v => encJ false Option.none 0 v

/-- Execute a parsed template against one item. -/
def execTmpl (ps : List TPart) (it : Item) : String :=
  concatAll (ps.map (fun p =>
    match p with
    | .lit s => (⟨s⟩ : String)
    | .fld name =>
      match name with
      | '.' :: fname =>
        (match it.jval with
         | .obj fs =>
           (match fs.find? (fun kv => kv.1 = (⟨fname⟩ : String)) with
            | some kv => renderScalar kv.2
            | Option.none => "<no value>")
         | v => renderScalar v)
      | _ => "<no value>"))

/-- `writeGoTemplate`: parse once (InvalidTemplate on failure), then
execute per item with a trailing newline. -/
def writeGoTemplate (tmplStr : String) (items : List Item) : String × Option Err :=
  match parseTmplF tmplStr.data.length tmplStr.data with
  | Option.none => ("", some (.invalidTemplate tmplStr))
  | some ps => (concatAll (items.map (fun it => execTmpl ps it ++ "\n")), Option.none)

/-! ## Dispatcher (part_000) -/

/-- The per-format routing switch shared by `Write` and the fallback path
of `writeFormatted`. -/
def writeDispatch (f : String) (items : List Item) : String × Option Err :=
  if f = "json" then writeJSON items
  else if f = "yaml" then writeYAML items
  else if f = "csv" then writeCSV items
  else if f = "table" then writeTable items
  else if f = "markdown" then writeMarkdown items
  else if f = "list" then writeList items
  else if f = "env" then writeENV items
  else if f = "plain" then writePlain items
  else if f = "tsv" then writeTSV items
  else if f = "jsonl" then writeJSONL items
  else if f = "html" then writeHTML items
  else
    match cutTmpl f with
    | some tmpl => writeGoTemplate tmpl items
    | Option.none => ("", some (.unsupportedFormat f))

/-- The item loop of `writeFormatted`: write override bytes, collect
fallback items, abort on the first override error. -/
def writeFormattedLoop (f : String) : List Item → String → List Item → String × Option Err
  | [], out, fallback =>
    if fallback.isEmpty then (out, Option.none)
    else
      let r := writeDispatch f fallback
      (out ++ r.1, r.2)
  | it :: rest, out, fallback =>
    match (it.formatFn?.getD (fun _ => .ok Option.none)) f with
    | .error e => (out, some e)
    | .ok (some data) => writeFormattedLoop f rest (out ++ data) fallback
    | .ok Option.none => writeFormattedLoop f rest out (fallback ++ [it])

/-- `writeFormatted` from part_000. -/
def writeFormatted (f : String) (items : List Item) : String × Option Err :=
  writeFormattedLoop f items "" []

/-- `Write` from part_000: the per-item override on item zero takes the
whole batch, otherwise route by format. -/
def Write (f : String) (items : List Item) : String × Option Err :=
  match items with
  | it :: _ => if it.formatFn?.isSome then writeFormatted f items else writeDispatch f items
  | [] => writeDispatch f items

/-- `Marshal`: buffer `Write`; on error no partial content is returned. -/
def Marshal (f : String) (items : List Item) : Except Err String :=
  match Write f items with
  | (o, Option.none) => .ok o
  | (_, some e) => .error e

/-! ## Streaming layer (stream part of html.go) -/

/-- `streamCollect`: buffer everything, then delegate to the batch entry
point (skipped entirely for an empty sequence). -/
def streamCollect (f : String) (items : List Item) : String × Option Err :=
  if items.isEmpty then ("", Option.none) else Write f items

/-- `streamJSON`: true incremental streaming with per-element encoders
(HTML escaping disabled, unlike the batch path). -/
def streamJSON (items : List Item) : String × Option Err :=
  ("[" ++ concatAll ((idxFrom 0 items).map (fun p =>
    (if 0 < p.1 then "," else "") ++ encJ false p.2.indent? 0 p.2.jval ++ "\n")) ++ "]\n",
   Option.none)

/-- `streamCSV`: first item through the batch renderer (header +
delimiter), every further item as a standalone row. -/
def streamCSV (items : List Item) : String × Option Err :=
  match items with
  | [] => ("", Option.none)
  | it :: rest =>
    if it.row?.isNone then ("", some (.missingInterface "csv" "Rower"))
    else
      let r := Write "csv" [it]
      match r.2 with
      | some e => (r.1, some e)
      | Option.none =>
        (r.1 ++ concatAll (rest.map (fun j => writeCSVRow (j.row?.getD []))), Option.none)

/-- `streamTSV`: first item through the batch renderer, then raw tab-joined
rows. -/
def streamTSV (items : List Item) : String × Option Err :=
  match items with
  | [] => ("", Option.none)
  | it :: rest =>
    if it.row?.isNone then ("", some (.missingInterface "tsv" "Rower"))
    else
      let r := Write "tsv" [it]
      match r.2 with
      | some e => (r.1, some e)
      | Option.none =>
        (r.1 ++ concatAll (rest.map (fun j => joinSep "\t" (j.row?.getD []) ++ "\n")),
         Option.none)

/-- `streamJSONL`: independent per item, identical to the batch loop. -/
def streamJSONL (items : List Item) : String × Option Err :=
  (concatAll (items.map (fun it => encJ true it.indent? 0 it.jval ++ "\n")), Option.none)

/-- `streamPlain`: independent per item, identical to the batch loop. -/
def streamPlain (items : List Item) : String × Option Err :=
  (concatAll (items.map (fun it => it.text ++ "\n")), Option.none)

/-- `streamGoTemplate`: buffer, then delegate to the template renderer. -/
def streamGoTemplate (tmpl : String) (items : List Item) : String × Option Err :=
  if items.isEmpty then ("", Option.none) else writeGoTemplate tmpl items

/-- `WriteIter` from the streaming layer. -/
def WriteIter (f : String) (items : List Item) : String × Option Err :=
  if f = "json" then streamJSON items
  else if f = "yaml" then streamCollect f items
  else if f = "table" ∨ f = "markdown" ∨ f = "html" then streamCollect f items
  else if f = "csv" then streamCSV items
  else if f = "tsv" then streamTSV items
  else if f = "jsonl" then streamJSONL items
  else if f = "plain" then streamPlain items
  else if f = "list" then streamCollect f items
  else if f = "env" then streamCollect f items
  else
    match cutTmpl f with
    | some tmpl => streamGoTemplate tmpl items
    | Option.none => ("", some (.unsupportedFormat f))

/-! ## Spec-side characterizations (refinement targets)

These definitions follow the WORDS of the spec (§4.9, §4.10), to be
compared with the loop-style code translations above. -/

/-- Spec wording: the maximum display width across every row's cell in
column `i`. -/
def cellsMaxW (rows : List (List String)) (i : Nat) : Nat :=
  rows.foldr (fun r acc => max (strWidth (r.getD i "")) acc) 0

/-- Spec wording (§4.9): each markdown column's width is the maximum
display width across the header cell and every row's corresponding cell,
with a floor of 3. -/
def mdSpecWidth (header : List String) (rows : List (List String)) (i : Nat) : Nat :=
  max 3 (max (strWidth (header.getD i "")) (cellsMaxW rows i))

/-- Spec wording (§4.9): the separator marker per alignment — right:
`width-1` dashes then a colon; center: colon, `width-2` dashes, colon;
left/default: `width` dashes. -/
def mdSpecMarker (a : Alignment) (w : Nat) : String :=
  match a with
  | .right => strRepeat "-" (w - 1) ++ ":"
  | .center => ":" ++ strRepeat "-" (w - 2) ++ ":"
  | .left => strRepeat "-" w

/-! ## Concrete fixtures used by witnesses and counterexamples -/

/-- An item encoding as the JSON string `s` (a plain string-valued item). -/
def strIt (s : String) : Item := { emptyItem with jval := .str s, text := s }

/-- A row-producing item with the single 9-character cell used by spec
property 6, capping column 0 at width 4. -/
def truncIt4 : Item := { emptyItem with row? := some ["abcdefghi"], maxWidths? := some [4] }

/-- Like `truncIt4` but capping column 0 at width 2. -/
def truncIt2 : Item := { emptyItem with row? := some ["abcdefghi"], maxWidths? := some [2] }

/-- A full-width-character table item with title, header and footer. -/
def wideIt : Item :=
  { emptyItem with
      row? := some ["你好", "ab"]
      header? := some ["h1", "h2"]
      title? := some "T"
      footer? := some ["f", "g"] }

/-- A second row for the full-width table example. -/
def wideIt2 : Item := { emptyItem with row? := some ["x", "yz"] }

/-- A header-and-rows item for markdown/CSV examples. -/
def mdIt : Item :=
  { emptyItem with
      row? := some ["你好", "b"]
      header? := some ["H", "Hdr2"]
      aligns? := some [.right, .center] }

/-- An item whose per-item override yields fixed bytes for the csv format
and falls through otherwise. -/
def ovrIt : Item :=
  { emptyItem with
      formatFn? := some (fun f => if f = "csv" then .ok (some "X") else .ok Option.none) }

/-! # Theorems -/

/-! ## String and width basics -/

theorem data_mk (l : List Char) : (⟨l⟩ : String).data = l := rfl

theorem mk_append (a b : List Char) : (⟨a⟩ : String) ++ (⟨b⟩ : String) = ⟨a ++ b⟩ := rfl

theorem data_append (a b : String) : (a ++ b).data = a.data ++ b.data := rfl

theorem listWidth_nil : listWidth [] = 0 := rfl

theorem listWidth_cons (c : Char) (cs : List Char) :
    listWidth (c :: cs) = runeWidth c + listWidth cs := by
  simp [listWidth]

theorem listWidth_append (a b : List Char) :
    listWidth (a ++ b) = listWidth a + listWidth b := by
  simp [listWidth]

theorem strWidth_append (a b : String) :
    strWidth (a ++ b) = strWidth a + strWidth b := by
  simp [strWidth, data_append, listWidth_append]

theorem concatAll_map_mk (ls : List (List Char)) :
    concatAll (ls.map (fun l => (⟨l⟩ : String))) = ⟨ls.flatten⟩ := by
  induction ls with
  | nil => rfl
  | cons a rest ih => simp [concatAll, ih, mk_append]

/-! ## takeWidth / truncate / wrap lemmas -/

theorem takeWidth_le (limit : Nat) (l : List Char) : listWidth (takeWidth limit l) ≤ limit := by
  induction l generalizing limit with
  | nil => simp [takeWidth, listWidth]
  | cons c cs ih =>
    simp only [takeWidth]
    by_cases hc : runeWidth c ≤ limit
    · rw [if_pos hc, listWidth_cons]
      have := ih (limit - runeWidth c)
      omega
    · rw [if_neg hc]
      simp [listWidth]

theorem takeWidth_append_drop (limit : Nat) (l : List Char) :
    takeWidth limit l ++ l.drop (takeWidth limit l).length = l := by
  induction l generalizing limit with
  | nil => simp [takeWidth]
  | cons c cs ih =>
    simp only [takeWidth]
    by_cases hc : runeWidth c ≤ limit
    · rw [if_pos hc]
      simpa using ih (limit - runeWidth c)
    · rw [if_neg hc]
      simp

theorem takeWidth_all (limit : Nat) (l : List Char) (h : listWidth l ≤ limit) :
    takeWidth limit l = l := by
  induction l generalizing limit with
  | nil => rfl
  | cons c cs ih =>
    rw [listWidth_cons] at h
    simp only [takeWidth, if_pos (by omega : runeWidth c ≤ limit)]
    rw [ih (limit - runeWidth c) (by omega)]

theorem truncate_data_no_tail (s : String) (w : Nat) :
    (truncate s w "").data = if strWidth s ≤ w then s.data else takeWidth w s.data := by
  simp only [truncate]
  by_cases h : strWidth s ≤ w
  · rw [if_pos h, if_pos h]
  · rw [if_neg h, if_neg h]
    show ((⟨takeWidth (w - strWidth "") s.data⟩ : String) ++ "").data = _
    simp [data_append, data_mk, strWidth, listWidth]

theorem wrapTake_append_drop (w : Nat) (l : List Char) :
    wrapTake w l ++ l.drop (wrapTake w l).length = l := by
  simp only [wrapTake]
  by_cases hz : listWidth (truncate ⟨l⟩ w "").data = 0
  · rw [if_pos hz]
    cases l <;> simp
  · rw [if_neg hz]
    rw [truncate_data_no_tail] at hz ⊢
    by_cases hf : strWidth (⟨l⟩ : String) ≤ w
    · rw [if_pos hf]
      simp [data_mk]
    · rw [if_neg hf]
      exact takeWidth_append_drop w l

theorem wrapLoop_flatten (w : Nat) : ∀ (n : Nat) (l : List Char), l.length ≤ n →
    (wrapLoop w l).flatten = l := by
  intro n
  induction n with
  | zero =>
    intro l h
    have : l = [] := List.eq_nil_of_length_eq_zero (Nat.le_zero.mp h)
    subst this
    simp [wrapLoop]
  | succ n ih =>
    intro l h
    match l with
    | [] => simp [wrapLoop]
    | c :: cs =>
      rw [wrapLoop]
      have hpos : 0 < (wrapTake w (c :: cs)).length := by
        simp only [wrapTake]
        by_cases hz : listWidth (truncate ⟨c :: cs⟩ w "").data = 0
        · simp [hz]
        · simp only [if_neg hz]
          cases hLine : (truncate ⟨c :: cs⟩ w "").data with
          | nil => exact absurd (by rw [hLine]; simp [listWidth]) hz
          | cons x xs => simp [hLine]
      have hlen : ((c :: cs).drop (wrapTake w (c :: cs)).length).length ≤ n := by
        simp only [List.length_drop, List.length_cons]
        simp only [List.length_cons] at h
        omega
      rw [List.flatten_cons, ih _ hlen, wrapTake_append_drop]


/-- C10: wrapping is lossless — the lines of `wrapCell s w`, concatenated
in order, are exactly `s`: no characters are dropped, duplicated, or
altered by splitting a cell into display lines. -/
theorem wrap_cell_lossless (s : String) (w : Int) : concatAll (wrapCell s w) = s := by
  simp only [wrapCell]
  by_cases h : w ≤ 0 ∨ (strWidth s : Int) ≤ w
  · rw [if_pos h]
    simp [concatAll]
  · rw [if_neg h]
    rw [concatAll_map_mk, wrapLoop_flatten w.toNat s.data.length s.data le_rfl]

/-- C8: `wrapCell` is total with forced progress — a cell whose display
width fits within the wrap width produces exactly one line; when a single
leading character's display width alone exceeds the wrap width, exactly
that one character is consumed as its own first output line; and the
result is never empty. -/
theorem wrap_cell_progress :
    (∀ (s : String) (w : Int), (strWidth s : Int) ≤ w → wrapCell s w = [s]) ∧
    (∀ (s : String) (w : Int), wrapCell s w ≠ []) ∧
    (∀ (c : Char) (cs : List Char) (w : Int), 0 < w → (w : Int) < (runeWidth c : Int) →
      wrapCell ⟨c :: cs⟩ w =
        (⟨[c]⟩ : String) :: (wrapLoop w.toNat cs).map (fun l => (⟨l⟩ : String))) := by
  refine ⟨fun s w h => by simp [wrapCell, if_pos (Or.inr h)], ?_, ?_⟩
  · intro s w
    simp only [wrapCell]
    by_cases h : w ≤ 0 ∨ (strWidth s : Int) ≤ w
    · rw [if_pos h]
      simp
    · rw [if_neg h]
      push_neg at h
      cases hd : s.data with
      | nil =>
        exact absurd (by simp [strWidth, hd, listWidth] : strWidth s = 0)
          (by intro hz; rw [hz] at h; omega)
      | cons c cs =>
        rw [wrapLoop]
        simp
  · intro c cs w hw hrc
    have hsw : strWidth (⟨c :: cs⟩ : String) = runeWidth c + listWidth cs := by
      simp [strWidth, data_mk, listWidth_cons]
    have hcond : ¬(w ≤ 0 ∨ (strWidth (⟨c :: cs⟩ : String) : Int) ≤ w) := by
      push_neg
      refine ⟨by omega, ?_⟩
      rw [hsw]
      push_cast
      omega
    have htake : wrapTake w.toNat (c :: cs) = [c] := by
      simp only [wrapTake, truncate_data_no_tail]
      have h1 : ¬ strWidth (⟨c :: cs⟩ : String) ≤ w.toNat := by
        rw [hsw]; omega
      rw [if_neg h1]
      have h2 : takeWidth w.toNat ((⟨c :: cs⟩ : String).data) = [] := by
        rw [data_mk]
        simp only [takeWidth]
        rw [if_neg (by omega)]
      rw [h2]
      simp [listWidth]
    simp only [wrapCell]
    rw [if_neg hcond]
    show (wrapLoop w.toNat (c :: cs)).map _ = _
    rw [wrapLoop, htake]
    simp

/-- Witness for C8 at concrete inputs: a fitting cell is one line; a
full-width character wider than wrap width 1 is force-consumed alone. -/
theorem wrap_cell_progress_witness :
    wrapCell "hi" 5 = ["hi"] ∧ wrapCell "你好" 1 ≠ [] ∧
    wrapCell "你好" 1 = ["你", "好"] := by
  refine ⟨wrap_cell_progress.1 "hi" 5 (by decide), wrap_cell_progress.2.1 "你好" 1, ?_⟩
  have h := wrap_cell_progress.2.2 '你' ['好'] 1 (by decide) (by decide)
  rw [show ((⟨'你' :: ['好']⟩ : String)) = "你好" from rfl] at h
  rw [h]
  have h2 : wrapLoop (Int.toNat 1) ['好'] = [['好']] := by
    rw [wrapLoop]
    rw [show wrapTake (Int.toNat 1) ['好'] = ['好'] from by decide]
    simp only [List.length_cons, List.length_nil, List.drop_succ_cons, List.drop_nil]
    rw [wrapLoop]
  rw [h2]
  rfl

/-- C4: `ParseFormat` accepts any string carrying the `go-template=`
prefix unchanged, accepts exactly the eleven static tags, and fails with
UnsupportedFormat carrying the offending string otherwise. -/
theorem parse_format_tags :
    (∀ s : String, goTemplateTag.isPrefixOf s.data = true → ParseFormat s = .ok s) ∧
    (∀ s ∈ formats, ParseFormat s = .ok s) ∧
    (∀ s : String, goTemplateTag.isPrefixOf s.data = false → s ∉ formats →
      ParseFormat s = .error (.unsupportedFormat s)) := by
  refine ⟨fun s h => by simp [ParseFormat, h], ?_, ?_⟩
  · intro s hs
    fin_cases hs <;> rfl
  · intro s h1 h2
    simp only [ParseFormat, h1]
    rw [if_neg (by simp)]
    have hnone : formats.find? (fun f => f = s) = Option.none := by
      rw [List.find?_eq_none]
      intro x hx
      simp only [decide_eq_true_eq]
      intro he
      exact h2 (he ▸ hx)
    rw [hnone]

/-- Witness for C4 at concrete inputs. -/
theorem parse_format_tags_witness :
    ParseFormat "go-template=x" = .ok "go-template=x" ∧
    ParseFormat "markdown" = .ok "markdown" ∧
    ParseFormat "xml" = .error (.unsupportedFormat "xml") :=
  ⟨parse_format_tags.1 "go-template=x" (by decide),
   parse_format_tags.2.1 "markdown" (by decide),
   parse_format_tags.2.2 "xml" (by decide) (by decide)⟩

/-- C9: `Formats` returns the eleven static tags in their fixed order as a
fresh copy — assigning to any element of a returned slice changes neither
the package-level list nor what a subsequent call returns. -/
theorem formats_fresh_copy (h : Heap) (hf : readSlice h formatsRef = formats)
    (hlen : 0 < h.length) :
    readSlice (Formats h).2 (Formats h).1 =
      ["json", "yaml", "csv", "table", "markdown", "list", "env", "plain", "tsv", "jsonl",
       "html"] ∧
    (Formats h).1 ≠ formatsRef ∧
    ∀ (i : Nat) (v : String),
      readSlice (writeSlice (Formats h).2 (Formats h).1 i v) formatsRef = formats ∧
      readSlice (Formats (writeSlice (Formats h).2 (Formats h).1 i v)).2
          (Formats (writeSlice (Formats h).2 (Formats h).1 i v)).1 =
        ["json", "yaml", "csv", "table", "markdown", "list", "env", "plain", "tsv", "jsonl",
         "html"] := by
  have readNew : ∀ (g : Heap) (x : List String), readSlice (g ++ [x]) ⟨g.length⟩ = x := by
    intro g x
    simp [readSlice, List.getD_append_right]
  have readOld : ∀ (g : Heap) (x : List String), 0 < g.length →
      readSlice (g ++ [x]) formatsRef = readSlice g formatsRef := by
    intro g x hg
    simp only [readSlice, formatsRef]
    rw [List.getD_append]
    exact hg
  refine ⟨?_, ?_, ?_⟩
  · show readSlice (h ++ [readSlice h formatsRef]) ⟨h.length⟩ = _
    rw [readNew, hf]
    rfl
  · show (⟨h.length⟩ : SliceRef) ≠ ⟨0⟩
    intro he
    have := congrArg SliceRef.idx he
    simp only at this
    omega
  · intro i v
    have hro : readSlice (writeSlice (Formats h).2 (Formats h).1 i v) formatsRef = formats := by
      show readSlice (((h ++ [readSlice h formatsRef]).set h.length _)) ⟨0⟩ = _
      simp only [readSlice]
      rw [List.getD_eq_getElem?_getD, List.getElem?_set_ne (by omega)]
      rw [← List.getD_eq_getElem?_getD]
      have := readOld h (readSlice h formatsRef) hlen
      simp only [readSlice, formatsRef] at this hf ⊢
      rw [this, hf]
    refine ⟨hro, ?_⟩
    show readSlice (_ ++ [readSlice _ formatsRef]) ⟨_⟩ = _
    rw [readNew, hro]
    rfl

/-- Witness for C9: starting from the initial heap, clobbering element 0 of
a returned copy leaves the package-level list intact. -/
theorem formats_fresh_copy_witness :
    readSlice (writeSlice (Formats initHeap).2 (Formats initHeap).1 0 "mutated") formatsRef =
      formats :=
  ((formats_fresh_copy initHeap rfl (by decide)).2.2 0 "mutated").1

/-! ## JSON batch arity (C1) -/

/-- C1: through the default dispatch path (first item without the per-item
override), `Write` with format json renders one item as a bare JSON value,
two or more items as a single JSON array of the whole ordered collection,
and zero items as exactly the bytes `null\n`, never returning an error. -/
theorem json_write_arity :
    (∀ it : Item, it.formatFn? = Option.none →
      Write "json" [it] = (encJ true it.indent? 0 it.jval ++ "\n", Option.none)) ∧
    (∀ (it : Item) (rest : List Item), rest ≠ [] → it.formatFn? = Option.none →
      Write "json" (it :: rest) =
        (encJ true it.indent? 0 (.arr ((it :: rest).map (fun j => j.jval))) ++ "\n",
         Option.none)) ∧
    Write "json" [] = ("null\n", Option.none) ∧
    Write "json" [strIt "a"] = ("\"a\"\n", Option.none) ∧
    Write "json" [strIt "a", strIt "b"] = ("[\"a\",\"b\"]\n", Option.none) := by
  refine ⟨?_, ?_, rfl, rfl, rfl⟩
  · intro it h
    simp [Write, h, writeDispatch, writeJSON]
  · intro it rest hne h
    cases rest with
    | nil => exact absurd rfl hne
    | cons b bs =>
      simp [Write, h, writeDispatch, writeJSON, sliceJval]

/-- Witness for C1's quantified parts at concrete inputs. -/
theorem json_write_arity_witness :
    Write "json" [strIt "x"] = ("\"x\"\n", Option.none) ∧
    Write "json" [strIt "x", strIt "y"] = ("[\"x\",\"y\"]\n", Option.none) := by
  constructor
  · rw [json_write_arity.1 (strIt "x") rfl]
    rfl
  · rw [json_write_arity.2.1 (strIt "x") [strIt "y"] (by simp) rfl]
    rfl

/-! ## Missing-interface pre-flight failures (C3) -/

/-- C3: through the default dispatch path (first item without the per-item
override), a first item lacking the row-producer fails CSV, Table and
Markdown, one lacking the list-producer fails List, and one lacking the
pair-producer fails ENV — always with an ErrMissingInterface error and
zero bytes written to the sink. -/
theorem missing_interface_preflight (it : Item) (rest : List Item)
    (hov : it.formatFn? = Option.none) :
    (it.row? = Option.none →
      Write "csv" (it :: rest) = ("", some (.missingInterface "csv" "Rower")) ∧
      Write "table" (it :: rest) = ("", some (.missingInterface "table" "Rower")) ∧
      Write "markdown" (it :: rest) = ("", some (.missingInterface "markdown" "Rower"))) ∧
    (it.list? = Option.none →
      Write "list" (it :: rest) = ("", some (.missingInterface "list" "Lister"))) ∧
    (it.pairs? = Option.none →
      Write "env" (it :: rest) = ("", some (.missingInterface "env" "Mappable"))) := by
  refine ⟨fun hr => ⟨?_, ?_, ?_⟩, fun hl => ?_, fun hp => ?_⟩
  · simp [Write, hov, writeDispatch, writeCSV, hr]
  · simp [Write, hov, writeDispatch, writeTable, writeTableLines, hr, joinLines, concatAll]
  · simp [Write, hov, writeDispatch, writeMarkdown, writeMarkdownLines, hr, joinLines,
      concatAll]
  · simp [Write, hov, writeDispatch, writeList, hl]
  · simp [Write, hov, writeDispatch, writeENV, hp]

/-- Witness for C3 at a concrete capability-free item. -/
theorem missing_interface_preflight_witness :
    Write "csv" [emptyItem] = ("", some (.missingInterface "csv" "Rower")) ∧
    Write "table" [emptyItem] = ("", some (.missingInterface "table" "Rower")) ∧
    Write "markdown" [emptyItem] = ("", some (.missingInterface "markdown" "Rower")) ∧
    Write "list" [emptyItem] = ("", some (.missingInterface "list" "Lister")) ∧
    Write "env" [emptyItem] = ("", some (.missingInterface "env" "Mappable")) := by
  have h := missing_interface_preflight emptyItem [] rfl
  exact ⟨(h.1 rfl).1, (h.1 rfl).2.1, (h.1 rfl).2.2, h.2.1 rfl, h.2.2 rfl⟩

/-! ## Streaming/batch equivalence (C2) -/

/-- Any parameterized template tag differs from every string shorter than
the 12-character prefix, so it misses all static-format branches. -/
theorem goTemplate_ne (tmpl s : String) (hs : s.length < 12) : GoTemplate tmpl ≠ s := by
  intro he
  have hlen : (GoTemplate tmpl).length = 12 + tmpl.length := by
    show ((⟨goTemplateTag⟩ : String) ++ tmpl).length = _
    rw [String.length_append]
    rfl
  rw [he] at hlen
  omega

theorem isPrefixOf_append_self (l r : List Char) : l.isPrefixOf (l ++ r) = true := by
  induction l with
  | nil => simp [List.isPrefixOf]
  | cons c cs ih => simp [List.isPrefixOf, ih]

/-- `strings.CutPrefix` recovers the template source from a template tag. -/
theorem cutTmpl_goTemplate (tmpl : String) : cutTmpl (GoTemplate tmpl) = some tmpl := by
  simp only [cutTmpl, GoTemplate, data_append, data_mk]
  rw [if_pos (isPrefixOf_append_self goTemplateTag tmpl.data)]
  rw [List.drop_left]

/-- Counterexample to C2 as stated: for the JSON format, streaming and
batch output differ on a one-element collection — streaming brackets the
element and keeps the encoder's per-element newline, batch emits the bare
value. -/
theorem stream_batch_json_differs :
    WriteIter "json" [strIt "a"] = ("[\"a\"\n]\n", Option.none) ∧
    Write "json" [strIt "a"] = ("\"a\"\n", Option.none) ∧
    ("[\"a\"\n]\n" : String) ≠ "\"a\"\n" :=
  ⟨rfl, rfl, by decide⟩

/-- C2 (amended): for every non-empty collection, streaming equals batch
for the collect-then-delegate formats (yaml, table, markdown, html, list,
env) unconditionally; for the template, jsonl, plain, tsv and csv formats
it holds when the first item does not use the per-item override (csv
additionally with the default comma delimiter); json is excluded. -/
theorem stream_batch_equiv_amended (it : Item) (rest : List Item) :
    (∀ f ∈ ["yaml", "table", "markdown", "html", "list", "env"],
      WriteIter f (it :: rest) = Write f (it :: rest)) ∧
    (it.formatFn? = Option.none →
      (∀ tmpl : String,
        WriteIter (GoTemplate tmpl) (it :: rest) = Write (GoTemplate tmpl) (it :: rest)) ∧
      WriteIter "jsonl" (it :: rest) = Write "jsonl" (it :: rest) ∧
      WriteIter "plain" (it :: rest) = Write "plain" (it :: rest) ∧
      WriteIter "tsv" (it :: rest) = Write "tsv" (it :: rest) ∧
      ((it.delim? = Option.none ∨ it.delim? = some ',') →
        WriteIter "csv" (it :: rest) = Write "csv" (it :: rest))) := by
  constructor
  · intro f hf
    fin_cases hf <;> simp [WriteIter, streamCollect]
  · intro hov
    refine ⟨?_, ?_, ?_, ?_, ?_⟩
    · intro tmpl
      have h1 : ∀ s : String, s.length < 12 → GoTemplate tmpl ≠ s :=
        fun s hs => goTemplate_ne tmpl s hs
      simp only [WriteIter, Write, writeDispatch, hov, Option.isSome_none, Bool.false_eq_true,
        if_false,
        if_neg (h1 "json" (by decide)), if_neg (h1 "yaml" (by decide)),
        if_neg (h1 "table" (by decide)), if_neg (h1 "markdown" (by decide)),
        if_neg (h1 "html" (by decide)), if_neg (h1 "csv" (by decide)),
        if_neg (h1 "tsv" (by decide)), if_neg (h1 "jsonl" (by decide)),
        if_neg (h1 "plain" (by decide)), if_neg (h1 "list" (by decide)),
        if_neg (h1 "env" (by decide)),
        if_neg (show ¬(GoTemplate tmpl = "table" ∨ GoTemplate tmpl = "markdown" ∨
          GoTemplate tmpl = "html") by
            push_neg
            exact ⟨h1 "table" (by decide), h1 "markdown" (by decide), h1 "html" (by decide)⟩),
        cutTmpl_goTemplate]
      simp [streamGoTemplate]
    · simp [WriteIter, Write, hov, writeDispatch, streamJSONL, writeJSONL]
    · simp [WriteIter, Write, hov, writeDispatch, streamPlain, writePlain]
    · show streamTSV (it :: rest) = _
      simp only [Write, hov, writeDispatch, Option.isSome_none, Bool.false_eq_true, if_false]
      simp only [streamTSV, writeTSV]
      cases hr : it.row? with
      | none => simp [Write, hov, writeDispatch, writeTSV, hr]
      | some r =>
        simp only [hr, Option.isNone_some, Bool.false_eq_true, if_false]
        simp [Write, hov, writeDispatch, writeTSV, hr, concatAll, String.append_assoc]
    · intro hd
      show streamCSV (it :: rest) = _
      simp only [Write, hov, writeDispatch, Option.isSome_none, Bool.false_eq_true, if_false]
      simp only [streamCSV, writeCSV]
      cases hr : it.row? with
      | none => simp [Write, hov, writeDispatch, writeCSV, hr]
      | some r =>
        have hdl : it.delim?.getD ',' = ',' := by
          cases hd with
          | inl h => rw [h]; rfl
          | inr h => rw [h]; rfl
        simp only [hr, Option.isNone_some, Bool.false_eq_true, if_false]
        simp [Write, hov, writeDispatch, writeCSV, hr, hdl, writeCSVRow, concatAll,
          String.append_assoc]

/-- Witness for C2's amended statement at concrete inputs. -/
theorem stream_batch_equiv_amended_witness :
    WriteIter "list" [strIt "a"] = Write "list" [strIt "a"] ∧
    WriteIter "csv" [mdIt, wideIt2] = Write "csv" [mdIt, wideIt2] ∧
    WriteIter "jsonl" [strIt "a"] = Write "jsonl" [strIt "a"] := by
  refine ⟨(stream_batch_equiv_amended (strIt "a") []).1 "list" (by simp), ?_, ?_⟩
  · exact (((stream_batch_equiv_amended mdIt [wideIt2]).2 rfl).2.2.2.2) (Or.inl rfl)
  · exact ((stream_batch_equiv_amended (strIt "a") []).2 rfl).2.1

/-! ## List-indexing helper lemmas -/

theorem getD_set_ne {α : Type} (l : List α) (k i : Nat) (v d : α) (h : k ≠ i) :
    (l.set k v).getD i d = l.getD i d := by
  simp [List.getD_eq_getElem?_getD, List.getElem?_set_ne h]

theorem getD_set_self {α : Type} (l : List α) (k : Nat) (v d : α) (h : k < l.length) :
    (l.set k v).getD k d = v := by
  simp [List.getD_eq_getElem?_getD, List.getElem?_set_self, h]

theorem getD_oob {α : Type} (l : List α) (i : Nat) (d : α) (h : l.length ≤ i) :
    l.getD i d = d := by
  simp [List.getD_eq_getElem?_getD, List.getElem?_eq_none h]

theorem getD_map_lt {α β : Type} (f : α → β) (l : List α) (i : Nat) (hi : i < l.length)
    (d : β) (d2 : α) : (l.map f).getD i d = f (l.getD i d2) := by
  simp [List.getD_eq_getElem?_getD, List.getElem?_map]
  rw [List.getElem?_eq_getElem hi]
  simp

/-! ## Closed forms of the width-computation loops -/

theorem widthPass_length (cells : List String) : ∀ (ws : List Nat) (k : Nat),
    (widthPass ws k cells).length = ws.length := by
  induction cells with
  | nil => intro ws k; rfl
  | cons c cs ih =>
    intro ws k
    show (widthPass _ (k + 1) cs).length = _
    rw [ih]
    split <;> simp

theorem widthPass_getD_lt (cells : List String) : ∀ (ws : List Nat) (k i : Nat), i < k →
    (widthPass ws k cells).getD i 0 = ws.getD i 0 := by
  induction cells with
  | nil => intro ws k i _; rfl
  | cons c cs ih =>
    intro ws k i hik
    show (widthPass _ (k + 1) cs).getD i 0 = _
    rw [ih _ (k + 1) i (by omega)]
    split
    · exact getD_set_ne ws k i _ 0 (by omega)
    · rfl

theorem widthPass_getD_ge (cells : List String) : ∀ (ws : List Nat) (k i : Nat), k ≤ i →
    i < ws.length →
    (widthPass ws k cells).getD i 0 = max (ws.getD i 0) (strWidth (cells.getD (i - k) "")) := by
  induction cells with
  | nil =>
    intro ws k i _ _
    show ws.getD i 0 = _
    simp [strWidth, listWidth]
  | cons c cs ih =>
    intro ws k i hki hil
    show (widthPass (if k < ws.length ∧ ws.getD k 0 < strWidth c then ws.set k (strWidth c)
      else ws) (k + 1) cs).getD i 0 = _
    by_cases hik : i = k
    · subst hik
      rw [widthPass_getD_lt cs _ (i + 1) i (by omega)]
      rw [show i - i = 0 from by omega, List.getD_cons_zero]
      by_cases hlt : ws.getD i 0 < strWidth c
      · rw [if_pos ⟨hil, hlt⟩, getD_set_self ws i _ 0 hil]
        omega
      · rw [if_neg (fun hh => hlt hh.2)]
        omega
    · have hki2 : k + 1 ≤ i := by omega
      have hil2 : i < (if k < ws.length ∧ ws.getD k 0 < strWidth c then ws.set k (strWidth c)
          else ws).length := by
        split <;> simpa
      rw [ih _ (k + 1) i hki2 hil2]
      have hgd : (if k < ws.length ∧ ws.getD k 0 < strWidth c then ws.set k (strWidth c)
          else ws).getD i 0 = ws.getD i 0 := by
        split
        · exact getD_set_ne ws k i _ 0 (by omega)
        · rfl
      rw [hgd]
      have hidx : i - k = (i - (k + 1)) + 1 := by omega
      rw [hidx, List.getD_cons_succ]

theorem foldWidth_length (rows : List (List String)) : ∀ (ws : List Nat),
    (rows.foldl (fun ws r => widthPass ws 0 r) ws).length = ws.length := by
  induction rows with
  | nil => intro ws; rfl
  | cons r rs ih =>
    intro ws
    show (rs.foldl _ (widthPass ws 0 r)).length = _
    rw [ih, widthPass_length]

theorem foldWidth_getD (rows : List (List String)) : ∀ (ws : List Nat) (i : Nat),
    i < ws.length →
    (rows.foldl (fun ws r => widthPass ws 0 r) ws).getD i 0 =
      max (ws.getD i 0) (cellsMaxW rows i) := by
  induction rows with
  | nil =>
    intro ws i _
    show ws.getD i 0 = _
    simp [cellsMaxW]
  | cons r rs ih =>
    intro ws i hi
    show (rs.foldl _ (widthPass ws 0 r)).getD i 0 = _
    rw [ih _ i (by rw [widthPass_length]; exact hi)]
    rw [widthPass_getD_ge r ws 0 i (by omega) hi, Nat.sub_zero]
    simp only [cellsMaxW, List.foldr_cons]
    have : ∀ a b c : Nat, max (max a b) c = max a (max b c) := fun a b c => by omega
    rw [this]

theorem computeWidths_length (numCols : Nat) (header : List String)
    (rows : List (List String)) (footer : List String) :
    (computeWidths numCols header rows footer).length = numCols := by
  unfold computeWidths
  rw [widthPass_length, foldWidth_length, widthPass_length, List.length_replicate]

theorem computeWidths_getD (numCols : Nat) (header : List String) (rows : List (List String))
    (footer : List String) (i : Nat) (hi : i < numCols) :
    (computeWidths numCols header rows footer).getD i 0 =
      max (max (strWidth (header.getD i "")) (cellsMaxW rows i))
        (strWidth (footer.getD i "")) := by
  unfold computeWidths
  rw [widthPass_getD_ge footer _ 0 i (by omega)
    (by rw [foldWidth_length, widthPass_length, List.length_replicate]; exact hi), Nat.sub_zero]
  rw [foldWidth_getD rows _ i (by rw [widthPass_length, List.length_replicate]; exact hi)]
  rw [widthPass_getD_ge header _ 0 i (by omega) (by rw [List.length_replicate]; exact hi),
    Nat.sub_zero]
  have hrep : (List.replicate numCols 0).getD i 0 = 0 := by
    simp [List.getD_eq_getElem?_getD]
  rw [hrep]
  omega

theorem mdWidths_length (numCols : Nat) (header : List String) (rows : List (List String)) :
    (mdWidths numCols header rows).length = numCols := by
  unfold mdWidths
  rw [List.length_map, foldWidth_length, widthPass_length, List.length_replicate]

theorem mdWidths_getD (numCols : Nat) (header : List String) (rows : List (List String))
    (i : Nat) (hi : i < numCols) :
    (mdWidths numCols header rows).getD i 0 = mdSpecWidth header rows i := by
  unfold mdWidths
  rw [getD_map_lt _ _ i
    (by rw [foldWidth_length, widthPass_length, List.length_replicate]; exact hi) 0 0]
  rw [foldWidth_getD rows _ i (by rw [widthPass_length, List.length_replicate]; exact hi)]
  rw [widthPass_getD_ge header _ 0 i (by omega) (by rw [List.length_replicate]; exact hi),
    Nat.sub_zero]
  have hrep : (List.replicate numCols 0).getD i 0 = 0 := by
    simp [List.getD_eq_getElem?_getD]
  rw [hrep]
  simp only [mdSpecWidth]
  split <;> omega

theorem idxFrom_map_eq_range {β : Type} (l : List Nat) (f : Nat × Nat → β) : ∀ k : Nat,
    (idxFrom k l).map f = (List.range l.length).map (fun i => f (k + i, l.getD i 0)) := by
  induction l with
  | nil => intro k; rfl
  | cons w ws ih =>
    intro k
    show f (k, w) :: (idxFrom (k + 1) ws).map f = _
    rw [ih (k + 1)]
    rw [List.length_cons, List.range_succ_eq_map, List.map_cons, List.map_map]
    congr 1
    apply List.map_congr_left
    intro i _
    show f (k + 1 + i, ws.getD i 0) = f (k + (i + 1), (w :: ws).getD (i + 1) 0)
    rw [List.getD_cons_succ]
    congr 2
    omega

/-! ## Markdown widths and separator (C6) -/

/-- C6: each markdown column width is the maximum display width over the
header cell and every row's corresponding cell with a floor of 3, and the
separator row's marker is `width-1` dashes plus `:` (right), `:` plus
`width-2` dashes plus `:` (center), or `width` dashes (left/default). -/
theorem markdown_widths_and_separator (it : Item) (rest : List Item) (hdr : List String)
    (hrow : it.row?.isSome = true) (hhd : it.header? = some hdr) :
    (∀ i, i < hdr.length →
      (mdWidths hdr.length hdr ((it :: rest).map (fun j => j.row?.getD []))).getD i 0 =
        mdSpecWidth hdr ((it :: rest).map (fun j => j.row?.getD [])) i) ∧
    (writeMarkdownLines (it :: rest)).1.getD 1 "" =
      "| " ++ joinSep " | " ((List.range hdr.length).map (fun i =>
        mdSpecMarker ((extendAligns (it.aligns?.getD []) hdr.length).getD i .left)
          (mdSpecWidth hdr ((it :: rest).map (fun j => j.row?.getD [])) i))) ++ " |" ∧
    (writeMarkdownLines (it :: rest)).2 = Option.none := by
  have hnone : it.row?.isNone = false := by
    cases hx : it.row? <;> simp_all
  refine ⟨fun i hi => mdWidths_getD hdr.length hdr _ i hi, ?_, ?_⟩
  · simp only [writeMarkdownLines, hnone, Bool.false_eq_true, if_false, hhd]
    refine congrArg (fun x => "| " ++ joinSep " | " x ++ " |") ?_
    rw [idxFrom_map_eq_range, mdWidths_length]
    apply List.map_congr_left
    intro i hi
    rw [List.mem_range] at hi
    dsimp only
    simp only [Nat.zero_add]
    rw [mdWidths_getD hdr.length hdr _ i hi]
    cases hal : (extendAligns (it.aligns?.getD []) hdr.length).getD i .left <;>
      simp [mdSpecMarker, hal]
  · simp [writeMarkdownLines, hnone, hhd]

/-- Witness for C6 at a concrete wide-character table. -/
theorem markdown_widths_and_separator_witness :
    (mdWidths 2 ["H", "Hdr2"] [["你好", "b"]]).getD 0 0 =
      mdSpecWidth ["H", "Hdr2"] [["你好", "b"]] 0 ∧
    (writeMarkdownLines [mdIt]).1.getD 1 "" = "| ---: | :--: |" := by
  have h := markdown_widths_and_separator mdIt [] ["H", "Hdr2"] rfl rfl
  refine ⟨h.1 0 (by decide), ?_⟩
  rw [h.2.1]
  rfl

/-! ## Cell formatting width lemmas -/

theorem strWidth_strRepeat (s : String) (n : Nat) :
    strWidth (strRepeat s n) = n * strWidth s := by
  induction n with
  | zero => simp [strRepeat, strWidth, listWidth]
  | succ n ih =>
    show listWidth (List.replicate (n + 1) s.data).flatten = _
    rw [List.replicate_succ, List.flatten_cons, listWidth_append]
    show strWidth s + strWidth (strRepeat s n) = _
    rw [ih]
    ring

theorem alignCell_width (s : String) (w : Nat) (a : Alignment) :
    strWidth (alignCell s w a) = max w (strWidth s) := by
  unfold alignCell
  by_cases h : w ≤ strWidth s
  · rw [if_pos h]
    omega
  · rw [if_neg h]
    have hsp : strWidth " " = 1 := by decide
    cases a <;> (simp only [strWidth_append, strWidth_strRepeat, hsp]; omega)

theorem formatTableCell_width (s : String) (w : Nat) (a : Alignment)
    (h : 0 < w ∨ strWidth s ≤ w) : strWidth (formatTableCell s w a) = w := by
  unfold formatTableCell
  by_cases hc : 0 < w ∧ w < strWidth s
  · rw [if_pos hc]
    by_cases h3 : w ≤ 3
    · rw [if_pos h3, alignCell_width]
      have hle : strWidth (truncate s w "") ≤ w := by
        rw [show strWidth (truncate s w "") = listWidth (truncate s w "").data from rfl,
          truncate_data_no_tail, if_neg (by omega)]
        exact takeWidth_le w s.data
      omega
    · rw [if_neg h3, alignCell_width]
      have hle : strWidth (truncate s w "...") ≤ w := by
        simp only [truncate]
        rw [if_neg (by omega), strWidth_append]
        have hb := takeWidth_le (w - strWidth "...") s.data
        rw [show strWidth ((⟨takeWidth (w - strWidth "...") s.data⟩ : String)) =
          listWidth (takeWidth (w - strWidth "...") s.data) from rfl]
        have hdots : strWidth "..." = 3 := by decide
        omega
      omega
  · rw [if_neg hc, alignCell_width]
    omega

/-! ## Table truncation rule (C5) -/

/-- C5: a cell line wider than its (possibly truncation-clamped) column
width `w` is cut to the maximal prefix of display width at most `w-3` with
a literal `...` appended when `w > 3`, and hard-cut to at most `w` display
columns with no ellipsis when `w ≤ 3`; the rendered cell occupies exactly
`w` display columns either way.  Concretely, a column capped at 4 renders
the 9-character cell `abcdefghi` as `a...` and a column capped at 2
renders it as `ab`. -/
theorem table_truncation_rule :
    (∀ (s : String) (w : Nat) (a : Alignment), w < strWidth s → 3 < w →
      formatTableCell s w a = alignCell ((⟨takeWidth (w - 3) s.data⟩ : String) ++ "...") w a ∧
      listWidth (takeWidth (w - 3) s.data) ≤ w - 3 ∧
      strWidth (formatTableCell s w a) = w) ∧
    (∀ (s : String) (w : Nat) (a : Alignment), w < strWidth s → 0 < w → w ≤ 3 →
      formatTableCell s w a = alignCell ((⟨takeWidth w s.data⟩ : String)) w a ∧
      listWidth (takeWidth w s.data) ≤ w ∧
      strWidth (formatTableCell s w a) = w) ∧
    writeTableLines [truncIt4] = (["╭──────╮", "│ a... │", "╰──────╯"], Option.none) ∧
    writeTableLines [truncIt2] = (["╭────╮", "│ ab │", "╰────╯"], Option.none) := by
  refine ⟨?_, ?_, rfl, rfl⟩
  · intro s w a h1 h2
    refine ⟨?_, takeWidth_le _ _, formatTableCell_width s w a (Or.inl (by omega))⟩
    unfold formatTableCell
    rw [if_pos ⟨by omega, h1⟩, if_neg (by omega)]
    simp only [truncate]
    rw [if_neg (by omega), show (strWidth "..." : Nat) = 3 from by decide]
  · intro s w a h1 h2 h3
    refine ⟨?_, takeWidth_le _ _, formatTableCell_width s w a (Or.inl h2)⟩
    unfold formatTableCell
    rw [if_pos ⟨h2, h1⟩, if_pos h3]
    simp only [truncate]
    rw [if_neg (by omega)]
    congr 1
    show ((⟨takeWidth (w - strWidth "") s.data⟩ : String) ++ "") = _
    rw [show (strWidth "" : Nat) = 0 from rfl, Nat.sub_zero]
    exact String.append_empty _

/-- Witness for C5's quantified parts at the spec's concrete inputs. -/
theorem table_truncation_rule_witness :
    formatTableCell "abcdefghi" 4 .left = "a..." ∧
    formatTableCell "abcdefghi" 2 .left = "ab" := by
  constructor
  · rw [(table_truncation_rule.1 "abcdefghi" 4 .left (by decide) (by decide)).1]
    rfl
  · rw [(table_truncation_rule.2.1 "abcdefghi" 2 .left (by decide) (by decide) (by decide)).1]
    rfl

/-! ## Bordered-table width invariant: helper lemmas (towards C7) -/

theorem joinSep_width (sep : String) : ∀ parts : List String,
    strWidth (joinSep sep parts) =
      (parts.map strWidth).sum + (parts.length - 1) * strWidth sep := by
  intro parts
  induction parts with
  | nil => simp [joinSep, strWidth, listWidth]
  | cons x xs ih =>
    cases xs with
    | nil => simp [joinSep]
    | cons y ys =>
      show strWidth (x ++ sep ++ joinSep sep (y :: ys)) = _
      rw [strWidth_append, strWidth_append, ih]
      simp only [List.map_cons, List.sum_cons, List.length_cons, Nat.add_sub_cancel]
      rw [Nat.succ_mul]
      ring

theorem idxFrom_length {α : Type} : ∀ (l : List α) (k : Nat), (idxFrom k l).length = l.length := by
  intro l
  induction l with
  | nil => intro k; rfl
  | cons x xs ih => intro k; simp [idxFrom, ih]

theorem mem_idxFrom_snd {α : Type} : ∀ (l : List α) (k : Nat) (p : Nat × α),
    p ∈ idxFrom k l → p.2 ∈ l := by
  intro l
  induction l with
  | nil => intro k p hp; cases hp
  | cons x xs ih =>
    intro k p hp
    cases hp with
    | head => exact List.mem_cons_self x xs
    | tail _ hmem => exact List.mem_cons_of_mem x (ih (k + 1) p hmem)

theorem mem_idxFrom_getD {α : Type} (d : α) : ∀ (l : List α) (k : Nat) (p : Nat × α),
    p ∈ idxFrom k l → k ≤ p.1 ∧ p.1 - k < l.length ∧ l.getD (p.1 - k) d = p.2 := by
  intro l
  induction l with
  | nil => intro k p hp; cases hp
  | cons x xs ih =>
    intro k p hp
    cases hp with
    | head =>
      refine ⟨le_refl k, by simp, ?_⟩
      rw [Nat.sub_self]
      rfl
    | tail _ hmem =>
      obtain ⟨h1, h2, h3⟩ := ih (k + 1) p hmem
      refine ⟨by omega, by simp; omega, ?_⟩
      rw [show p.1 - k = (p.1 - (k + 1)) + 1 from by omega, List.getD_cons_succ]
      exact h3

theorem idxFrom_map_getD {β : Type} (l : List Nat) (g : Nat × Nat → β) (i : Nat)
    (hi : i < l.length) (d : β) : ((idxFrom 0 l).map g).getD i d = g (i, l.getD i 0) := by
  rw [idxFrom_map_eq_range l g 0]
  rw [getD_map_lt _ _ i (by simpa) d 0]
  have hr : (List.range l.length).getD i 0 = i := by
    rw [List.getD_eq_getElem?_getD, List.getElem?_range hi]
    rfl
  rw [hr, Nat.zero_add]

theorem idxFrom_map_strWidth (l : List Nat) (f : Nat × Nat → String) : ∀ k : Nat,
    (∀ p ∈ idxFrom k l, strWidth (f p) = p.2 + 2) →
    ((idxFrom k l).map f).map strWidth = l.map (fun w => w + 2) := by
  induction l with
  | nil => intro k _; rfl
  | cons w ws ih =>
    intro k hf
    show strWidth (f (k, w)) :: ((idxFrom (k + 1) ws).map f).map strWidth = _
    rw [hf (k, w) (by simp [idxFrom]), ih (k + 1) (fun p hp => hf p (by simp [idxFrom, hp]))]
    rfl

theorem borderedLine_width (vert : String) (hv : strWidth vert = 1) (widths : List Nat)
    (f : Nat × Nat → String) (hf : ∀ p ∈ idxFrom 0 widths, strWidth (f p) = p.2 + 2) :
    strWidth (borderedLine vert ((idxFrom 0 widths).map f)) = tableInnerWidth widths + 2 := by
  unfold borderedLine
  rw [strWidth_append, strWidth_append, joinSep_width, idxFrom_map_strWidth widths f 0 hf,
    List.length_map, idxFrom_length, hv]
  unfold tableInnerWidth
  rw [Nat.mul_one]
  split <;> omega

theorem drawHLine_width (widths : List Nat) (left fill mid right : String)
    (hl : strWidth left = 1) (hf : strWidth fill = 1) (hm : strWidth mid = 1)
    (hr : strWidth right = 1) :
    strWidth (drawHLine widths left fill mid right) = tableInnerWidth widths + 2 := by
  unfold drawHLine
  rw [strWidth_append, strWidth_append, joinSep_width, hl, hm, hr]
  have hmap : (widths.map (fun w => strRepeat fill (w + 2))).map strWidth =
      widths.map (fun w => w + 2) := by
    rw [List.map_map]
    apply List.map_congr_left
    intro w _
    simp [strWidth_strRepeat, hf]
  rw [hmap, List.length_map]
  unfold tableInnerWidth
  rw [Nat.mul_one]
  split <;> omega

theorem getD_all_none {α : Type} (l : List (Option α)) (h : ∀ o ∈ l, o = Option.none)
    (i : Nat) : l.getD i Option.none = Option.none := by
  rw [List.getD_eq_getElem?_getD]
  cases hx : l[i]? with
  | none => rfl
  | some o =>
    have hm : o ∈ l := List.getElem?_mem hx
    rw [h o hm]
    rfl

theorem drawBorderedRow_width (cells : List String) (widths : List Nat)
    (aligns : List Alignment) (vert : String) (styles : List (Option (String → String)))
    (wrapWidths : List Int) (hv : strWidth vert = 1)
    (hst : ∀ o ∈ styles, o = Option.none)
    (hcw : ∀ i, widths.getD i 0 = 0 → strWidth (cells.getD i "") = 0) :
    ∀ line ∈ drawBorderedRow cells widths aligns vert styles wrapWidths,
      strWidth line = tableInnerWidth widths + 2 := by
  have hsp : strWidth " " = 1 := by decide
  intro line hline
  unfold drawBorderedRow at hline
  by_cases hw : wrapWidths ≠ []
  · rw [if_pos hw] at hline
    obtain ⟨lineNo, _, rfl⟩ := List.mem_map.mp hline
    apply borderedLine_width vert hv widths _ ?_
    intro p hp
    obtain ⟨_, hlt, hget⟩ := mem_idxFrom_getD 0 widths 0 p hp
    rw [Nat.sub_zero] at hlt hget
    rw [strWidth_append, strWidth_append, getD_all_none styles hst p.1]
    simp only [applyStyle]
    rw [formatTableCell_width _ _ _ ?_]
    · omega
    · by_cases hz : p.2 = 0
      · right
        rw [show (wrapRow cells widths wrapWidths) =
          (idxFrom 0 widths).map (fun p =>
            if 0 < wrapWidths.getD p.1 0 ∧ wrapWidths.getD p.1 0 < (p.2 : Int)
            then wrapCell (cells.getD p.1 "") (wrapWidths.getD p.1 0)
            else [cells.getD p.1 ""]) from rfl]
        rw [idxFrom_map_getD widths _ p.1 hlt []]
        rw [hget]
        rw [if_neg (by rw [hz]; intro hh; omega)]
        have hc0 : strWidth (cells.getD p.1 "") = 0 := hcw p.1 (by rw [hget, hz])
        cases lineNo with
        | zero => simpa [hz] using hc0
        | succ nn => simp [hz, strWidth, listWidth]
      · left
        omega
  · rw [if_neg hw] at hline
    rcases List.mem_singleton.mp hline with rfl
    apply borderedLine_width vert hv widths _ ?_
    intro p hp
    obtain ⟨_, hlt, hget⟩ := mem_idxFrom_getD 0 widths 0 p hp
    rw [Nat.sub_zero] at hlt hget
    rw [strWidth_append, strWidth_append, getD_all_none styles hst p.1]
    simp only [applyStyle]
    rw [formatTableCell_width _ _ _ ?_]
    · omega
    · by_cases hz : p.2 = 0
      · right
        rw [hcw p.1 (by rw [hget, hz])]
        omega
      · left
        omega

theorem tableInnerWidth_ge2 (widths : List Nat) (h : widths ≠ []) :
    2 ≤ tableInnerWidth widths := by
  cases widths with
  | nil => exact absurd rfl h
  | cons w ws =>
    unfold tableInnerWidth
    rw [List.map_cons, List.sum_cons]
    split <;> omega

theorem foldl_max_init : ∀ (rows : List (List String)) (a : Nat),
    a ≤ rows.foldl (fun n row => max n row.length) a := by
  intro rows
  induction rows with
  | nil => intro a; exact le_refl a
  | cons r rs ih =>
    intro a
    exact le_trans (le_max_left a r.length) (ih (max a r.length))

theorem foldl_max_mem : ∀ (rows : List (List String)) (a : Nat) (row : List String),
    row ∈ rows → row.length ≤ rows.foldl (fun n row => max n row.length) a := by
  intro rows
  induction rows with
  | nil => intro a row h; cases h
  | cons r rs ih =>
    intro a row h
    cases h with
    | head => exact le_trans (le_max_right a r.length) (foldl_max_init rs _)
    | tail _ hmem => exact ih _ row hmem

theorem header_le_colCount (header : List String) (rows : List (List String))
    (footer : List String) : header.length ≤ colCount header rows footer :=
  le_trans (foldl_max_init rows header.length) (le_max_left _ _)

theorem mem_le_colCount (header : List String) (rows : List (List String))
    (footer : List String) (row : List String) (hr : row ∈ rows) :
    row.length ≤ colCount header rows footer :=
  le_trans (foldl_max_mem rows header.length row hr) (le_max_left _ _)

theorem footer_le_colCount (header : List String) (rows : List (List String))
    (footer : List String) : footer.length ≤ colCount header rows footer :=
  le_max_right _ _

theorem mem_le_cellsMaxW : ∀ (rows : List (List String)) (row : List String),
    row ∈ rows → ∀ i : Nat, strWidth (row.getD i "") ≤ cellsMaxW rows i := by
  intro rows
  induction rows with
  | nil => intro row hr; cases hr
  | cons r rs ih =>
    intro row hr i
    have hc : cellsMaxW (r :: rs) i = max (strWidth (r.getD i "")) (cellsMaxW rs i) := rfl
    cases hr with
    | head => rw [hc]; exact le_max_left _ _
    | tail _ hmem => rw [hc]; exact le_trans (ih row hmem i) (le_max_right _ _)

theorem clampWidths_zero (w0 : List Nat) (maxs : List Int) (i : Nat)
    (h : ((idxFrom 0 w0).map (fun p =>
      match maxs.get? p.1 with
      | some m => if 0 < m ∧ (p.2 : Int) > m then m.toNat else p.2
      | Option.none => p.2)).getD i 0 = 0) :
    w0.getD i 0 = 0 := by
  by_cases hi : i < w0.length
  · rw [idxFrom_map_getD w0 _ i hi 0] at h
    dsimp only at h
    cases hm : maxs.get? i with
    | none =>
      rw [hm] at h
      exact h
    | some m =>
      rw [hm] at h
      dsimp only at h
      by_cases hcond : 0 < m ∧ (w0.getD i 0 : Int) > m
      · rw [if_pos hcond] at h
        omega
      · rw [if_neg hcond] at h
        exact h
  · exact getD_oob w0 i 0 (by omega)

theorem tableData_widths_zero (H : List String) (R : List (List String)) (F : List String)
    (maxs : List Int) (i : Nat)
    (h : ((idxFrom 0 (computeWidths (colCount H R F) H R F)).map (fun p =>
      match maxs.get? p.1 with
      | some m => if 0 < m ∧ (p.2 : Int) > m then m.toNat else p.2
      | Option.none => p.2)).getD i 0 = 0) :
    strWidth (H.getD i "") = 0 ∧ (∀ row ∈ R, strWidth (row.getD i "") = 0) ∧
      strWidth (F.getD i "") = 0 := by
  have hz : (computeWidths (colCount H R F) H R F).getD i 0 = 0 := clampWidths_zero _ maxs i h
  by_cases hi : i < colCount H R F
  · rw [computeWidths_getD _ H R F i hi] at hz
    refine ⟨by omega, ?_, by omega⟩
    intro row hr
    have := mem_le_cellsMaxW R row hr i
    omega
  · refine ⟨?_, ?_, ?_⟩
    · rw [getD_oob H i "" (by have := header_le_colCount H R F; omega)]
      decide
    · intro row hr
      rw [getD_oob row i "" (by have := mem_le_colCount H R F row hr; omega)]
      decide
    · rw [getD_oob F i "" (by have := footer_le_colCount H R F; omega)]
      decide

theorem extendStyles_all_none (l : List (Option (String → String))) (n : Nat)
    (hl : ∀ o ∈ l, o = Option.none) : ∀ o ∈ extendStyles l n, o = Option.none := by
  intro o ho
  unfold extendStyles at ho
  split at ho
  · exact hl o (List.mem_of_mem_take ho)
  · rcases List.mem_append.mp ho with h | h
    · exact hl o h
    · exact List.eq_of_mem_replicate h

theorem renderBorderedTable_width (title : String) (header : List String)
    (rows : List (List String)) (footer : List String) (widths : List Nat)
    (aligns : List Alignment) (style : BorderStyle)
    (styles : List (Option (String → String))) (groups : List String)
    (wrapWidths : List Int) (pageSize : Int)
    (hstyle : style ≠ BorderStyle.none)
    (hst : ∀ o ∈ styles, o = Option.none)
    (hcwh : ∀ i, widths.getD i 0 = 0 → strWidth (header.getD i "") = 0)
    (hcwr : ∀ row ∈ rows, ∀ i, widths.getD i 0 = 0 → strWidth (row.getD i "") = 0)
    (hcwf : ∀ i, widths.getD i 0 = 0 → strWidth (footer.getD i "") = 0)
    (htitle : title ≠ "" → strWidth title ≤ tableInnerWidth widths - 2 ∧ widths ≠ []) :
    ∀ line ∈ renderBorderedTable title header rows footer widths aligns style styles groups
      wrapWidths pageSize, strWidth line = tableInnerWidth widths + 2 := by
  have hsp : strWidth " " = 1 := by decide
  have hbc : strWidth (borderSets style).topLeft = 1 ∧ strWidth (borderSets style).topRight = 1 ∧
      strWidth (borderSets style).bottomLeft = 1 ∧
      strWidth (borderSets style).bottomRight = 1 ∧
      strWidth (borderSets style).horizontal = 1 ∧ strWidth (borderSets style).vertical = 1 ∧
      strWidth (borderSets style).topTee = 1 ∧ strWidth (borderSets style).bottomTee = 1 ∧
      strWidth (borderSets style).leftTee = 1 ∧ strWidth (borderSets style).rightTee = 1 ∧
      strWidth (borderSets style).cross = 1 := by
    cases style with
    | none => exact absurd rfl hstyle
    | rounded => refine ⟨?_, ?_, ?_, ?_, ?_, ?_, ?_, ?_, ?_, ?_, ?_⟩ <;> decide
    | ascii => refine ⟨?_, ?_, ?_, ?_, ?_, ?_, ?_, ?_, ?_, ?_, ?_⟩ <;> decide
    | heavy => refine ⟨?_, ?_, ?_, ?_, ?_, ?_, ?_, ?_, ?_, ?_, ?_⟩ <;> decide
    | double => refine ⟨?_, ?_, ?_, ?_, ?_, ?_, ?_, ?_, ?_, ?_, ?_⟩ <;> decide
  obtain ⟨h1, h2, h3, h4, h5, h6, h7, h8, h9, h10, h11⟩ := hbc
  intro line hline
  unfold renderBorderedTable at hline
  rcases List.mem_append.mp hline with hmain | hbot
  · rcases List.mem_append.mp hmain with hmain2 | hfoot
    · rcases List.mem_append.mp hmain2 with hmain3 | hrowsb
      · rcases List.mem_append.mp hmain3 with htop | hhdr
        · by_cases ht : title ≠ ""
          · rw [if_pos ht] at htop
            simp only [List.mem_cons, List.not_mem_nil, or_false] at htop
            rcases htop with rfl | rfl | rfl
            · exact drawHLine_width widths _ _ _ _ h1 h5 h5 h2
            · rw [strWidth_append, strWidth_append, strWidth_append, strWidth_append, h6, hsp,
                alignCell_width]
              obtain ⟨htw, hne⟩ := htitle ht
              have hge := tableInnerWidth_ge2 widths hne
              omega
            · exact drawHLine_width widths _ _ _ _ h9 h5 h7 h10
          · rw [if_neg ht] at htop
            simp only [List.mem_cons, List.not_mem_nil, or_false] at htop
            rcases htop with rfl
            exact drawHLine_width widths _ _ _ _ h1 h5 h7 h2
        · by_cases hh : header ≠ []
          · rw [if_pos hh] at hhdr
            rcases List.mem_append.mp hhdr with hhl | hsep
            · exact drawBorderedRow_width header widths aligns _ styles wrapWidths h6 hst hcwh
                line hhl
            · simp only [List.mem_cons, List.not_mem_nil, or_false] at hsep
              rcases hsep with rfl
              exact drawHLine_width widths _ _ _ _ h9 h5 h11 h10
          · rw [if_neg hh] at hhdr
            cases hhdr
      · obtain ⟨p, hp, hmem⟩ := List.mem_flatMap.mp hrowsb
        rcases List.mem_append.mp hmem with hmem2 | hrowl
        · rcases List.mem_append.mp hmem2 with hgrp | hpage
          · split at hgrp
            · simp only [List.mem_cons, List.not_mem_nil, or_false] at hgrp
              rcases hgrp with rfl
              exact drawHLine_width widths _ _ _ _ h9 h5 h11 h10
            · cases hgrp
          · split at hpage
            · rcases List.mem_append.mp hpage with hps | hps3
              · rcases List.mem_append.mp hps with hps1 | hhl
                · simp only [List.mem_cons, List.not_mem_nil, or_false] at hps1
                  rcases hps1 with rfl
                  exact drawHLine_width widths _ _ _ _ h9 h5 h11 h10
                · exact drawBorderedRow_width header widths aligns _ styles wrapWidths h6 hst
                    hcwh line hhl
              · simp only [List.mem_cons, List.not_mem_nil, or_false] at hps3
                rcases hps3 with rfl
                exact drawHLine_width widths _ _ _ _ h9 h5 h11 h10
            · cases hpage
        · exact drawBorderedRow_width p.2 widths aligns _ styles wrapWidths h6 hst
            (hcwr p.2 (mem_idxFrom_snd rows 0 p hp)) line hrowl
    · by_cases hf : footer ≠ []
      · rw [if_pos hf] at hfoot
        rcases List.mem_append.mp hfoot with hsep | hfl
        · simp only [List.mem_cons, List.not_mem_nil, or_false] at hsep
          rcases hsep with rfl
          exact drawHLine_width widths _ _ _ _ h9 h5 h11 h10
        · exact drawBorderedRow_width footer widths aligns _ styles wrapWidths h6 hst hcwf
            line hfl
      · rw [if_neg hf] at hfoot
        cases hfoot
  · simp only [List.mem_cons, List.not_mem_nil, or_false] at hbot
    rcases hbot with rfl
    exact drawHLine_width widths _ _ _ _ h3 h5 h8 h4

/-- C7: in a bordered table without style functions or caption, every
rendered line — borders, title line, header, data rows (wrapped or not,
grouped, paged), and footer — has the same total display width, namely the
inner width plus the two outer border glyphs, for every row set including
ones with full-width or combining characters.  The title is assumed to fit
within the inner width (a wider title also widens its line in the Go
code). -/
theorem bordered_table_uniform_width (it : Item) (rest : List Item)
    (hrow : it.row?.isSome = true)
    (hsty : it.styles? = Option.none)
    (hcap : it.caption? = Option.none)
    (hbord : (mkTableData it (it :: rest)).border ≠ BorderStyle.none)
    (htit : (mkTableData it (it :: rest)).title ≠ "" →
      strWidth (mkTableData it (it :: rest)).title ≤
        tableInnerWidth (mkTableData it (it :: rest)).widths - 2 ∧
      (mkTableData it (it :: rest)).widths ≠ []) :
    ∀ line ∈ (writeTableLines (it :: rest)).1,
      strWidth line = tableInnerWidth (mkTableData it (it :: rest)).widths + 2 := by
  intro line hline
  have hcapd : (mkTableData it (it :: rest)).caption = "" := by
    show it.caption?.getD "" = ""
    rw [hcap]
    rfl
  simp only [writeTableLines, hrow, if_true] at hline
  rw [if_neg hbord] at hline
  rw [hcapd] at hline
  simp only [ne_eq, not_true_eq_false, if_false, List.append_nil] at hline
  refine renderBorderedTable_width _ _ _ _ _ _ _ _ _ _ _ hbord ?_ ?_ ?_ ?_ htit line hline
  · intro o ho
    refine extendStyles_all_none
      (if it.numHdr?.isSome then Option.none :: it.styles?.getD [] else it.styles?.getD [])
      _ ?_ o ho
    intro o2 ho2
    rw [hsty] at ho2
    cases hn : it.numHdr? with
    | none => simp [hn] at ho2
    | some s =>
      simp [hn] at ho2
      exact ho2
  · intro i h0
    exact (tableData_widths_zero (mkTableData it (it :: rest)).header
      (mkTableData it (it :: rest)).rows (mkTableData it (it :: rest)).footer
      (it.maxWidths?.getD []) i h0).1
  · intro row hr i h0
    exact (tableData_widths_zero (mkTableData it (it :: rest)).header
      (mkTableData it (it :: rest)).rows (mkTableData it (it :: rest)).footer
      (it.maxWidths?.getD []) i h0).2.1 row hr
  · intro i h0
    exact (tableData_widths_zero (mkTableData it (it :: rest)).header
      (mkTableData it (it :: rest)).rows (mkTableData it (it :: rest)).footer
      (it.maxWidths?.getD []) i h0).2.2

/-- Witness for C7: a titled, headed, footered bordered table containing
the full-width cell 你好 renders with every line 13 display columns wide,
even though byte lengths differ between lines. -/
theorem bordered_table_uniform_width_witness :
    (∀ line ∈ (writeTableLines [wideIt, wideIt2]).1,
      strWidth line = tableInnerWidth (mkTableData wideIt [wideIt, wideIt2]).widths + 2) ∧
    (writeTableLines [wideIt, wideIt2]).1 =
      ["╭───────────╮", "│     T     │", "├──────┬────┤", "│ h1   │ h2 │", "├──────┼────┤",
       "│ 你好 │ ab │", "│ x    │ yz │", "├──────┼────┤", "│ f    │ g  │", "╰──────┴────╯"] ∧
    tableInnerWidth (mkTableData wideIt [wideIt, wideIt2]).widths + 2 = 13 := by
  refine ⟨bordered_table_uniform_width wideIt [wideIt2] rfl rfl rfl (by decide) ?_, rfl, rfl⟩
  intro _
  exact ⟨by decide, by decide⟩

end Fmter
